import Mathlib

/-!
Verification of the download-and-install pipeline of the treasure-chest
repository (src-tauri).  The Rust sources are shallowly embedded as
executable Lean definitions:

* `download_manager.rs` — the queue/scheduler (`DownloadManager`) becomes an
  explicit concurrent state machine `TDMState` with one atomic step per
  lock-guarded section and per semaphore operation, and explicit pools for
  the tokio tasks in flight between two such steps (`DMState` and
  `cancelDownload` additionally render one whole `cancel_download` call for
  the per-call cancellation claims).
* `mod_installer.rs` — the install orchestrator (`ModInstaller`) becomes a
  pure function over a path-set file-system model, the manifest
  normalisation (`strip_json_comments`, BOM strip, trailing-comma fixes)
  becomes character-list functions, and `serde_json` parsing is embedded as
  a strict RFC-8259 recursive-descent parser.

Theorems at the end settle the specification claims against these
definitions.
-/

namespace TreasureChest

/-! ## Download manager (src/src-tauri/src/download_manager.rs)

The manager owns two lock-protected containers (`queue : VecDeque`,
`active : HashMap`) and a counting semaphore, and its handlers run on
concurrently interleaving tokio tasks.  The model therefore keeps one
atomic step per individual shared-state action of the source — one step
per lock-guarded section, one per semaphore operation — and tracks every
in-flight continuation between two such actions in explicit thread pools.
Tasks carry the fields the scheduler itself mutates; the request payload
and byte counters are irrelevant to the scheduling claims and are
omitted. -/

/-- Mirrors `DownloadStatus` of download_manager.rs (the `Paused` variant
exists in the source but is never assigned). -/
inductive DStatus where
  | queued
  | downloading
  | paused
  | completed
  | failed (error : String)
deriving DecidableEq, Repr

/-- Scheduler-relevant projection of `DownloadTask`: its id and status. -/
structure QTask where
  id : String
  status : DStatus
deriving DecidableEq, Repr

/-- Joint state of `DownloadManager`: the FIFO queue, the active map
(modelled as an association list id ↦ status), and the semaphore's free
permit count. -/
structure DMState where
  queue : List QTask
  active : List (String × DStatus)
  permits : Nat
deriving DecidableEq, Repr

/-- Initial state of `DownloadManager::new`: empty queue, empty active set,
`max_concurrent` free permits. -/
def DMState.init (maxConcurrent : Nat) : DMState :=
  { queue := [], active := [], permits := maxConcurrent }

/-- Mirrors `iter_mut().find(|t| t.id == id)` followed by a status
assignment: the first queue entry with the given id gets the new status. -/
def setStatusFirst (q : List QTask) (id : String) (st : DStatus) : List QTask :=
  match q with
  | [] => []
  | t :: ts =>
    if t.id = id then { t with status := st } :: ts
    else t :: setStatusFirst ts id st

/-- Mirrors `DownloadManager::cancel_download`.  The first block looks the
id up in the queue by position — with no status filter — and removes the
entry outright, returning `Ok`; otherwise the active-map entry, when
present, is marked `Failed("Cancelled by user")`, and `Ok` is returned in
every case. -/
def cancelDownload (s : DMState) (id : String) : DMState × Except String Unit :=
  if s.queue.any (fun t => t.id = id) then
    ({ s with queue := s.queue.eraseP (fun t => t.id = id) }, Except.ok ())
  else
    let act := s.active.map (fun p =>
      if p.1 = id then (p.1, DStatus.failed "Cancelled by user") else p)
    ({ s with active := act }, Except.ok ())

/-- `matches!(t.status, Completed | Failed { .. })` of `clear_completed`. -/
def isTerminal : DStatus → Bool
  | DStatus.completed => true
  | DStatus.failed _ => true
  | _ => false

/-- `HashMap::insert` on the association-list rendering of `active`: an
existing binding of the key is overwritten, a new key is appended. -/
def mapInsert (m : List (String × DStatus)) (id : String) (st : DStatus) :
    List (String × DStatus) :=
  if m.any (fun p => p.1 = id) then
    m.map (fun p => if p.1 = id then (p.1, st) else p)
  else m ++ [(id, st)]

/-- Fine-grained state of the concurrent manager: the two lock-protected
containers and the semaphore's free-permit count, plus one pool per
program point at which an in-flight tokio task sits between two
shared-state actions.  `nFind`, `pIns` and `pMark` are the
`process_next_download` continuations that hold a permit and are about to
run, respectively, the queued-task lookup, the active-map insert and the
queue status write; `eRun` are the spawned `execute_download` bodies
(still holding their permit); `eUpd` and `eRem` are terminal callbacks
that already dropped the permit and are about to run, respectively, the
queue update and the active-map removal of `complete_download` /
`fail_download` (`none` for success, `some e` for failure `e`); `cPend`
are `cancel_download` calls past their queue section that found nothing
there and are about to run the active section. -/
structure TDMState where
  queue : List QTask
  active : List (String × DStatus)
  permits : Nat
  nFind : Nat
  pIns : List String
  pMark : List String
  eRun : List String
  eUpd : List (String × Option String)
  eRem : List (String × Option String)
  cPend : List String
deriving DecidableEq, Repr

/-- Initial state of `DownloadManager::new`: empty containers,
`max_concurrent` free permits, no task in flight. -/
def tdmInit (maxConcurrent : Nat) : TDMState :=
  { queue := [], active := [], permits := maxConcurrent, nFind := 0,
    pIns := [], pMark := [], eRun := [], eUpd := [], eRem := [], cPend := [] }

/-- Mirrors `add_to_queue`'s one queue-lock section: a task with a fresh
`Uuid` id and status `Queued` is pushed at the back.  Uuid v4 ids never
repeat within a process, which the model renders as a no-op when the
chosen id is already known anywhere in the manager. -/
def tdmSubmit (s : TDMState) (id : String) : TDMState :=
  if s.queue.any (fun t => t.id = id) || s.active.any (fun p => p.1 = id)
      || s.pIns.any (fun x => x = id) || s.pMark.any (fun x => x = id)
      || s.eRun.any (fun x => x = id) || s.eUpd.any (fun p => p.1 = id)
      || s.eRem.any (fun p => p.1 = id) then s
  else { s with queue := s.queue ++ [{ id := id, status := DStatus.queued }] }

/-- Mirrors `semaphore.try_acquire_owned()` at the head of
`process_next_download`: an atomic non-blocking decrement; on failure the
whole call returns at once. -/
def tdmAcquire (s : TDMState) : TDMState :=
  if s.permits = 0 then s
  else { s with permits := s.permits - 1, nFind := s.nFind + 1 }

/-- Mirrors the first queue-lock section of `process_next_download`:
`queue.iter_mut().find(|t| matches!(t.status, Queued)).cloned()` — the
queue itself is not modified, the clone's status is set locally.  With a
hit the continuation proceeds towards the active-map insert; with a miss
the call returns and its permit is dropped at scope exit. -/
def tdmFindTask (s : TDMState) : TDMState :=
  if s.nFind = 0 then s
  else
    match s.queue.find? (fun t => t.status = DStatus.queued) with
    | some t => { s with nFind := s.nFind - 1, pIns := s.pIns ++ [t.id] }
    | none => { s with nFind := s.nFind - 1, permits := s.permits + 1 }

/-- Mirrors the active-lock section of `process_next_download`:
`active.insert(task.id, task)` with the clone already marked
`Downloading`. -/
def tdmInsertActive (s : TDMState) (id : String) : TDMState :=
  if s.pIns.any (fun x => x = id) then
    { s with active := mapInsert s.active id DStatus.downloading,
             pIns := s.pIns.eraseP (fun x => x = id),
             pMark := s.pMark ++ [id] }
  else s

/-- Mirrors the second queue-lock section of `process_next_download`: the
first queue entry with the task's id — if still present — is marked
`Downloading`; then `execute_download` is spawned with the permit moved
into it. -/
def tdmMarkQueue (s : TDMState) (id : String) : TDMState :=
  if s.pMark.any (fun x => x = id) then
    { s with queue := setStatusFirst s.queue id DStatus.downloading,
             pMark := s.pMark.eraseP (fun x => x = id),
             eRun := s.eRun ++ [id] }
  else s

/-- Mirrors the end of the spawned execution body: `execute_download`
returns with result `res` (`none` success, `some e` failure) and
`drop(permit)` runs — before `complete_download` / `fail_download` are
awaited. -/
def tdmFinishDrop (s : TDMState) (id : String) (res : Option String) : TDMState :=
  if s.eRun.any (fun x => x = id) then
    { s with eRun := s.eRun.eraseP (fun x => x = id),
             permits := s.permits + 1,
             eUpd := s.eUpd ++ [(id, res)] }
  else s

/-- Mirrors the queue-lock section of `complete_download` /
`fail_download`: the first queue entry with the id is marked `Completed`
or `Failed(e)`. -/
def tdmUpdQueue (s : TDMState) (id : String) : TDMState :=
  match s.eUpd.find? (fun p => p.1 = id) with
  | some p =>
    { s with queue := setStatusFirst s.queue id
               (match p.2 with
                | none => DStatus.completed
                | some e => DStatus.failed e),
             eUpd := s.eUpd.eraseP (fun q => q.1 = id),
             eRem := s.eRem ++ [p] }
  | none => s

/-- Mirrors the active-lock section of `complete_download` /
`fail_download`: `active.remove(&download_id)`; the callback then ends. -/
def tdmRemActive (s : TDMState) (id : String) : TDMState :=
  if s.eRem.any (fun p => p.1 = id) then
    { s with active := s.active.eraseP (fun p => p.1 = id),
             eRem := s.eRem.eraseP (fun p => p.1 = id) }
  else s

/-- Mirrors the first lock section of `cancel_download`: an id found in
the queue — with no status filter — is removed outright and the call
returns; otherwise the call proceeds towards the active section. -/
def tdmCancelQueue (s : TDMState) (id : String) : TDMState :=
  if s.queue.any (fun t => t.id = id) then
    { s with queue := s.queue.eraseP (fun t => t.id = id) }
  else { s with cPend := s.cPend ++ [id] }

/-- Mirrors the second lock section of `cancel_download`: a matching
active entry is marked `Failed("Cancelled by user")`. -/
def tdmCancelActive (s : TDMState) (id : String) : TDMState :=
  if s.cPend.any (fun x => x = id) then
    let act := s.active.map (fun p =>
      if p.1 = id then (p.1, DStatus.failed "Cancelled by user") else p)
    { s with active := act, cPend := s.cPend.eraseP (fun x => x = id) }
  else s

/-- Mirrors `clear_completed`'s one queue-lock section: terminal entries
are dropped. -/
def tdmClearCompleted (s : TDMState) : TDMState :=
  { s with queue := s.queue.filter (fun t => ! isTerminal t.status) }

/-- One atomic shared-state action of some tokio task: a submission, one
of the four actions of an admission attempt, the permit drop and the two
terminal-callback sections of an execution, the two sections of a
cancellation, or a queue cleanup.  Events naming a thread that is not at
the corresponding program point are no-ops, so every interleaving of the
source is a plain event list. -/
inductive TDMEvent where
  | submit (id : String)
  | acquire
  | findTask
  | insertActive (id : String)
  | markQueue (id : String)
  | finishDrop (id : String) (res : Option String)
  | updQueue (id : String)
  | remActive (id : String)
  | cancelQueue (id : String)
  | cancelActive (id : String)
  | clearCompleted
deriving DecidableEq, Repr

/-- One event applied to the state. -/
def tdmStep (s : TDMState) : TDMEvent → TDMState
  | TDMEvent.submit id => tdmSubmit s id
  | TDMEvent.acquire => tdmAcquire s
  | TDMEvent.findTask => tdmFindTask s
  | TDMEvent.insertActive id => tdmInsertActive s id
  | TDMEvent.markQueue id => tdmMarkQueue s id
  | TDMEvent.finishDrop id res => tdmFinishDrop s id res
  | TDMEvent.updQueue id => tdmUpdQueue s id
  | TDMEvent.remActive id => tdmRemActive s id
  | TDMEvent.cancelQueue id => tdmCancelQueue s id
  | TDMEvent.cancelActive id => tdmCancelActive s id
  | TDMEvent.clearCompleted => tdmClearCompleted s

/-- State reached from `DownloadManager::new maxConcurrent` after a
sequence of atomic actions. -/
def tdmRun (maxConcurrent : Nat) (events : List TDMEvent) : TDMState :=
  events.foldl tdmStep (tdmInit maxConcurrent)

/-- Number of semaphore permits currently held by some in-flight task: a
permit is held from a successful `try_acquire_owned` until the
`drop(permit)` that precedes the terminal callback (or the scope exit of
a fruitless admission attempt). -/
def heldPermits (s : TDMState) : Nat :=
  s.nFind + s.pIns.length + s.pMark.length + s.eRun.length

/-- Number of tasks whose status is `Downloading` in the queue snapshot,
as `get_queue_state` reports it. -/
def tdmDownloadingCount (s : TDMState) : Nat :=
  (s.queue.filter (fun t => t.status = DStatus.downloading)).length

/-- The interleaving refuting the `Downloading ≤ permits` claim at
`max_concurrent = 1`: task `A` is submitted and fully admitted; `B` is
submitted; `A`'s execution finishes and drops its permit, but its
completion callback has not yet run its queue update, so `A` still reads
`Downloading` while the freed permit admits `B`. -/
def c1Trace : List TDMEvent :=
  [TDMEvent.submit "A", TDMEvent.acquire, TDMEvent.findTask,
   TDMEvent.insertActive "A", TDMEvent.markQueue "A",
   TDMEvent.submit "B", TDMEvent.finishDrop "A" none,
   TDMEvent.acquire, TDMEvent.findTask,
   TDMEvent.insertActive "B", TDMEvent.markQueue "B"]

/-! ## Error-body truncation (src/src-tauri/src/download_manager.rs, lines 373-379)

On a non-success HTTP status the executor builds
`format!("HTTP error {}: {}", status, if error_body.len() > 200 {
&error_body[..200] } else { &error_body })`.  Rust's `&s[..200]` panics
when byte 200 is not a character boundary; the model returns `none` for a
panic and `some` for the produced message. -/

/-- Mirrors how Rust `str::len` counts a char: its UTF-8 encoded size. -/
def utf8Size (c : Char) : Nat :=
  if c.toNat < 0x80 then 1
  else if c.toNat < 0x800 then 2
  else if c.toNat < 0x10000 then 3
  else 4

/-- Byte length of a string, as Rust `str::len`. -/
def byteLen (s : List Char) : Nat := (s.map utf8Size).sum

/-- Mirrors Rust byte slicing `&s[..k]`: the character prefix occupying
exactly `k` bytes, or `none` when the operation panics because `k` is not
a character boundary (or exceeds the length). -/
def sliceBytesAt : List Char → Nat → Option (List Char)
  | _, 0 => some []
  | [], _ + 1 => none
  | c :: cs, k + 1 =>
    if utf8Size c ≤ k + 1 then
      (sliceBytesAt cs (k + 1 - utf8Size c)).map (fun p => c :: p)
    else none

/-- Mirrors the truncation expression of `execute_download`:
`if error_body.len() > 200 { &error_body[..200] } else { &error_body }`. -/
def truncatedErrorBody (body : List Char) : Option (List Char) :=
  if byteLen body > 200 then sliceBytesAt body 200 else some body

/-- Mirrors the whole `format!("HTTP error {}: {}", status, …)` expression;
`none` models the panic inside the argument. -/
def httpErrorMessage (status : String) (body : List Char) : Option String :=
  (truncatedErrorBody body).map
    (fun t => "HTTP error " ++ status ++ ": " ++ String.mk t)

/-! ## Manifest data model (src/src-tauri/src/models.rs) -/

/-- Mirrors `ModDependency`. -/
structure ModDependency where
  uniqueId : String
  isRequired : Option Bool
deriving DecidableEq, Repr

/-- Mirrors `ContentPackInfo`. -/
structure ContentPackInfo where
  uniqueId : String
deriving DecidableEq, Repr

/-- Mirrors `ModManifest`: serde field names are `Name`, `Author` (default
value `"Unknown"`), `Version`, `UniqueID`, `Description`, `Dependencies`,
`ContentPackFor`. -/
structure ModManifest where
  name : String
  author : String
  version : String
  uniqueId : String
  description : Option String
  dependencies : Option (List ModDependency)
  contentPackFor : Option ContentPackInfo
deriving DecidableEq, Repr

/-- Mirrors `InstallError` of mod_installer.rs; the `IoError` payload is
the rendered io-error message. -/
inductive InstallError where
  | extractionFailed (e : String)
  | manifestNotFound
  | invalidManifest (e : String)
  | installationFailed (e : String)
  | ioError (e : String)
deriving DecidableEq, Repr

/-! ## Comment stripping (mod_installer.rs, `strip_json_comments`)

The Rust routine walks the characters once with an `in_string` and an
`escape_next` flag; `//` comments are dropped up to and including nothing
— the terminating newline itself is kept — and `/* */` comments are
replaced by one space.  Totality comes from a fuel argument; every
recursive call shrinks the input by at least one character, so
`length + 1` fuel always suffices and the fuel case is unreachable. -/

/-- Mirrors the single-line-comment loop: drop characters until a `'\n'`
or `'\r'`, returning that newline (pushed to the output) and the rest. -/
def consumeLineComment : List Char → Option Char × List Char
  | [] => (none, [])
  | c :: cs => if c = '\n' || c = '\r' then (some c, cs) else consumeLineComment cs

/-- Mirrors the block-comment loop: drop characters until the previous one
is `'*'` and the current one is `'/'`. -/
def consumeBlockComment : List Char → Char → List Char
  | [], _ => []
  | c :: cs, prev => if prev = '*' && c = '/' then cs else consumeBlockComment cs c

/-- Main loop of `strip_json_comments`, with the `in_string` and
`escape_next` flags explicit. -/
def stripGo : Nat → List Char → Bool → Bool → List Char
  | 0, _, _, _ => []
  | _ + 1, [], _, _ => []
  | fuel + 1, c :: cs, instr, esc =>
    if esc then c :: stripGo fuel cs instr false
    else if c = '\\' && instr then c :: stripGo fuel cs instr true
    else if c = '"' then c :: stripGo fuel cs (!instr) esc
    else if c = '/' && !instr then
      match cs with
      | [] => ['/']
      | d :: ds =>
        if d = '/' then
          match consumeLineComment ds with
          | (some nl, rest) => nl :: stripGo fuel rest instr esc
          | (none, _) => []
        else if d = '*' then
          ' ' :: stripGo fuel (consumeBlockComment ds ' ') instr esc
        else '/' :: stripGo fuel cs instr esc
    else c :: stripGo fuel cs instr esc

/-- Mirrors `ModInstaller::strip_json_comments`. -/
def stripJsonComments (s : List Char) : List Char :=
  stripGo (s.length + 1) s false false

/-! ## Trailing-comma fixes (mod_installer.rs, `parse_manifest`)

`parse_manifest` chains five `str::replace` calls; `replace` substitutes
non-overlapping occurrences left to right and never rescans the
replacement text. -/

/-- Loop of `str::replace`; fuel `length + 1` suffices for a non-empty
pattern since each step drops at least one input character. -/
def replaceGo : Nat → List Char → List Char → List Char → List Char
  | 0, _, _, s => s
  | fuel + 1, pat, repl, s =>
    match s with
    | [] => []
    | c :: cs =>
      if pat.isPrefixOf s then repl ++ replaceGo fuel pat repl (s.drop pat.length)
      else c :: replaceGo fuel pat repl cs

/-- Mirrors Rust `str::replace(pat, repl)`. -/
def replaceAll (pat repl s : List Char) : List Char :=
  replaceGo (s.length + 1) pat repl s

/-- Mirrors the replace chain of `parse_manifest`:
`.replace(",\n\x7d", "\n\x7d").replace(",\r\n\x7d", "\r\n\x7d")
.replace(", \x7d", " \x7d").replace(",]", "]").replace(", ]", " ]")`
(`\x7d` stands for the closing curly brace). -/
def fixTrailingCommas (s : List Char) : List Char :=
  let s1 := replaceAll [',', '\n', '}'] ['\n', '}'] s
  let s2 := replaceAll [',', '\r', '\n', '}'] ['\r', '\n', '}'] s1
  let s3 := replaceAll [',', ' ', '}'] [' ', '}'] s2
  let s4 := replaceAll [',', ']'] [']'] s3
  replaceAll [',', ' ', ']'] [' ', ']'] s4

/-! ## Strict JSON parsing (serde_json model)

`parse_manifest` hands the normalised text to `serde_json`, which accepts
exactly RFC 8259: no comments, no trailing commas.  The grammar is
embedded as a fuel-indexed recursive-descent parser; the fuel only bounds
value nesting, and `length + 1` always suffices. -/

/-- Parsed JSON value; number lexemes are kept verbatim (no claim compares
numeric values). -/
inductive Json where
  | null
  | bool (b : Bool)
  | num (lexeme : List Char)
  | str (s : String)
  | arr (elems : List Json)
  | obj (members : List (String × Json))

/-- RFC 8259 insignificant whitespace. -/
def jsonWs (c : Char) : Bool := c = ' ' || c = '\t' || c = '\n' || c = '\r'

/-- Skip insignificant whitespace. -/
def skipWs (s : List Char) : List Char := s.dropWhile jsonWs

/-- Hexadecimal digit value, on raw code points. -/
def hexVal (c : Char) : Option Nat :=
  let n := c.toNat
  if 48 ≤ n && n ≤ 57 then some (n - 48)
  else if 97 ≤ n && n ≤ 102 then some (n - 87)
  else if 65 ≤ n && n ≤ 70 then some (n - 55)
  else none

/-- Four hex digits of a `\u` escape. -/
def parseHex4 : List Char → Option (Nat × List Char)
  | a :: b :: c :: d :: rest =>
    match hexVal a, hexVal b, hexVal c, hexVal d with
    | some x, some y, some z, some w => some (((x * 16 + y) * 16 + z) * 16 + w, rest)
    | _, _, _, _ => none
  | _ => none

/-- Body of a JSON string literal, after the opening quote: handles the
simple escapes, `\u` escapes with surrogate pairs, rejects lone
surrogates, raw control characters and an unterminated literal, exactly
as serde_json does. -/
def parseStringBody : Nat → List Char → Except String (List Char × List Char)
  | 0, _ => Except.error "string fuel exhausted"
  | _ + 1, [] => Except.error "unterminated string literal"
  | fuel + 1, c :: cs =>
    if c = '"' then Except.ok ([], cs)
    else if c = '\\' then
      match cs with
      | [] => Except.error "unterminated escape"
      | e :: es =>
        let simple : Option Char :=
          if e = '"' then some '"'
          else if e = '\\' then some '\\'
          else if e = '/' then some '/'
          else if e = 'b' then some (Char.ofNat 8)
          else if e = 'f' then some (Char.ofNat 12)
          else if e = 'n' then some '\n'
          else if e = 'r' then some '\r'
          else if e = 't' then some '\t'
          else none
        match simple with
        | some ch => (parseStringBody fuel es).map (fun r => (ch :: r.1, r.2))
        | none =>
          if e = 'u' then
            match parseHex4 es with
            | none => Except.error "invalid unicode escape"
            | some (n, rest) =>
              if 0xD800 ≤ n && n ≤ 0xDBFF then
                match rest with
                | '\\' :: 'u' :: rest2 =>
                  match parseHex4 rest2 with
                  | some (m, rest3) =>
                    if 0xDC00 ≤ m && m ≤ 0xDFFF then
                      let cp := 0x10000 + (n - 0xD800) * 0x400 + (m - 0xDC00)
                      (parseStringBody fuel rest3).map (fun r => (Char.ofNat cp :: r.1, r.2))
                    else Except.error "invalid low surrogate"
                  | none => Except.error "invalid unicode escape"
                | _ => Except.error "unexpected end of hex escape"
              else if 0xDC00 ≤ n && n ≤ 0xDFFF then Except.error "lone surrogate"
              else (parseStringBody fuel rest).map (fun r => (Char.ofNat n :: r.1, r.2))
          else Except.error "invalid escape"
    else if c.toNat < 0x20 then Except.error "control character in string"
    else (parseStringBody fuel cs).map (fun r => (c :: r.1, r.2))

/-- Longest run of decimal digits. -/
def takeDigits : List Char → List Char × List Char
  | [] => ([], [])
  | c :: cs =>
    if '0' ≤ c && c ≤ '9' then
      let r := takeDigits cs
      (c :: r.1, r.2)
    else ([], c :: cs)

/-- Optional exponent part of a JSON number, appended to the lexeme so
far. -/
def parseExpPart (lex : List Char) (s : List Char) : Except String (List Char × List Char) :=
  match s with
  | e :: rest =>
    if e = 'e' || e = 'E' then
      let (esign, rest2) := match rest with
        | '+' :: r => ([('+' : Char)], r)
        | '-' :: r => ([('-' : Char)], r)
        | _ => (([] : List Char), rest)
      let r := takeDigits rest2
      if r.1.isEmpty then Except.error "expected digits in exponent"
      else Except.ok (lex ++ e :: esign ++ r.1, r.2)
    else Except.ok (lex, s)
  | [] => Except.ok (lex, s)

/-- JSON number grammar, returning the lexeme:
`-? (0 | [1-9][0-9]*) (. [0-9]+)? ([eE][+-]?[0-9]+)?`. -/
def parseNumber (s : List Char) : Except String (List Char × List Char) :=
  let (sign, s1) := match s with
    | '-' :: rest => ([('-' : Char)], rest)
    | _ => (([] : List Char), s)
  let intRes : Except String (List Char × List Char) :=
    match s1 with
    | [] => Except.error "expected number"
    | c :: cs =>
      if c = '0' then Except.ok ([c], cs)
      else if '1' ≤ c && c ≤ '9' then
        let r := takeDigits cs
        Except.ok (c :: r.1, r.2)
      else Except.error "expected number"
  match intRes with
  | Except.error e => Except.error e
  | Except.ok (intDigits, s2) =>
    match s2 with
    | '.' :: rest =>
      let r := takeDigits rest
      if r.1.isEmpty then Except.error "expected digits after decimal point"
      else parseExpPart (sign ++ intDigits ++ '.' :: r.1) r.2
    | _ => parseExpPart (sign ++ intDigits) s2

mutual

/-- One JSON value, consuming leading whitespace.  The shared fuel
decreases structurally on every recursive call; each such call has
already consumed at least one input character, so the top-level call with
`length + 1` fuel never hits the fuel case. -/
def parseValue : Nat → List Char → Except String (Json × List Char)
  | 0, _ => Except.error "recursion limit exceeded"
  | fuel + 1, s =>
    match skipWs s with
    | [] => Except.error "unexpected end of input"
    | c :: cs =>
      if c = 'n' then
        match cs with
        | 'u' :: 'l' :: 'l' :: rest => Except.ok (Json.null, rest)
        | _ => Except.error "expected null"
      else if c = 't' then
        match cs with
        | 'r' :: 'u' :: 'e' :: rest => Except.ok (Json.bool true, rest)
        | _ => Except.error "expected true"
      else if c = 'f' then
        match cs with
        | 'a' :: 'l' :: 's' :: 'e' :: rest => Except.ok (Json.bool false, rest)
        | _ => Except.error "expected false"
      else if c = '"' then
        (parseStringBody (cs.length + 1) cs).map (fun r => (Json.str (String.mk r.1), r.2))
      else if c = '{' then
        match skipWs cs with
        | '}' :: rest => Except.ok (Json.obj [], rest)
        | l2 => (parseMembers fuel l2).map (fun r => (Json.obj r.1, r.2))
      else if c = '[' then
        match skipWs cs with
        | ']' :: rest => Except.ok (Json.arr [], rest)
        | l2 => (parseElems fuel l2).map (fun r => (Json.arr r.1, r.2))
      else
        (parseNumber (c :: cs)).map (fun r => (Json.num r.1, r.2))

/-- Non-empty member list of an object, up to and including the closing
curly brace; strict: a comma must introduce another member. -/
def parseMembers : Nat → List Char → Except String (List (String × Json) × List Char)
  | 0, _ => Except.error "recursion limit exceeded"
  | fuel + 1, l =>
    match skipWs l with
    | '"' :: cs =>
      match parseStringBody (cs.length + 1) cs with
      | Except.error e => Except.error e
      | Except.ok (k, rest) =>
        match skipWs rest with
        | ':' :: rest2 =>
          match parseValue fuel rest2 with
          | Except.error e => Except.error e
          | Except.ok (v, rest3) =>
            match skipWs rest3 with
            | ',' :: rest4 =>
              (parseMembers fuel rest4).map
                (fun r => ((String.mk k, v) :: r.1, r.2))
            | '}' :: rest4 => Except.ok ([(String.mk k, v)], rest4)
            | _ => Except.error "expected comma or closing brace after object member"
        | _ => Except.error "expected colon after object key"
    | _ => Except.error "key must be a string"

/-- Non-empty element list of an array, up to and including `]`. -/
def parseElems : Nat → List Char → Except String (List Json × List Char)
  | 0, _ => Except.error "recursion limit exceeded"
  | fuel + 1, l =>
    match parseValue fuel l with
    | Except.error e => Except.error e
    | Except.ok (v, rest) =>
      match skipWs rest with
      | ',' :: rest2 => (parseElems fuel rest2).map (fun r => (v :: r.1, r.2))
      | ']' :: rest2 => Except.ok ([v], rest2)
      | _ => Except.error "expected comma or closing bracket after array element"

end

/-- Mirrors `serde_json::from_str::<Value>`: one value and nothing but
whitespace after it. -/
def parseJson (s : List Char) : Except String Json :=
  match parseValue (s.length + 1) s with
  | Except.error e => Except.error e
  | Except.ok (v, rest) =>
    if (skipWs rest).isEmpty then Except.ok v
    else Except.error "trailing characters"

/-! ## Typed manifest deserialisation (serde derive model for `ModManifest`) -/

/-- First binding of a key in an object member list. -/
def jLookup (ms : List (String × Json)) (k : String) : Option Json :=
  (ms.find? (fun p => p.1 = k)).map Prod.snd

/-- Mirrors deserialising a `String` field. -/
def asString : Json → Except String String
  | Json.str s => Except.ok s
  | _ => Except.error "invalid type: expected a string"

/-- Mirrors a required `String` field. -/
def reqString (ms : List (String × Json)) (k : String) : Except String String :=
  match jLookup ms k with
  | none => Except.error ("missing field " ++ k)
  | some v => asString v

/-- Mirrors an `Option<String>` field: absent or `null` is `None`. -/
def optString (ms : List (String × Json)) (k : String) : Except String (Option String) :=
  match jLookup ms k with
  | none => Except.ok none
  | some Json.null => Except.ok none
  | some (Json.str s) => Except.ok (some s)
  | some _ => Except.error "invalid type: expected a string"

/-- Mirrors an `Option<bool>` field. -/
def optBool (ms : List (String × Json)) (k : String) : Except String (Option Bool) :=
  match jLookup ms k with
  | none => Except.ok none
  | some Json.null => Except.ok none
  | some (Json.bool b) => Except.ok (some b)
  | some _ => Except.error "invalid type: expected a boolean"

/-- Mirrors deserialising one `ModDependency` object. -/
def depFromJson : Json → Except String ModDependency
  | Json.obj ms => do
    let u ← reqString ms "UniqueID"
    let r ← optBool ms "IsRequired"
    pure { uniqueId := u, isRequired := r }
  | _ => Except.error "invalid type: expected an object"

/-- Mirrors `Option<Vec<ModDependency>>`. -/
def depsFromJson (ms : List (String × Json)) : Except String (Option (List ModDependency)) :=
  match jLookup ms "Dependencies" with
  | none => Except.ok none
  | some Json.null => Except.ok none
  | some (Json.arr es) => (es.mapM depFromJson).map some
  | some _ => Except.error "invalid type: expected an array"

/-- Mirrors `Option<ContentPackInfo>`. -/
def cpFromJson (ms : List (String × Json)) : Except String (Option ContentPackInfo) :=
  match jLookup ms "ContentPackFor" with
  | none => Except.ok none
  | some Json.null => Except.ok none
  | some (Json.obj cms) => (reqString cms "UniqueID").map (fun u => some { uniqueId := u })
  | some _ => Except.error "invalid type: expected an object"

/-- Mirrors `serde_json::from_str::<ModManifest>` applied to an already
parsed value: required `Name`, `Version`, `UniqueID`; `Author` defaults to
`"Unknown"`; the optional fields accept absence or `null`; unknown keys
are ignored (no `deny_unknown_fields`). -/
def manifestFromJson : Json → Except String ModManifest
  | Json.obj ms => do
    let n ← reqString ms "Name"
    let a ← match jLookup ms "Author" with
      | none => pure "Unknown"
      | some v => asString v
    let v ← reqString ms "Version"
    let u ← reqString ms "UniqueID"
    let d ← optString ms "Description"
    let deps ← depsFromJson ms
    let cp ← cpFromJson ms
    pure { name := n, author := a, version := v, uniqueId := u,
           description := d, dependencies := deps, contentPackFor := cp }
  | _ => Except.error "invalid type: expected an object"

/-- Mirrors `ModInstaller::parse_manifest` on the file content (the
surrounding `File::open`/`read_to_string` errors are handled by the
caller): strip every leading byte-order mark (`trim_start_matches`), strip
comments, fix the handled trailing commas, parse as generic JSON, require
an object, then deserialise as `ModManifest`, reporting which of the three
required fields are absent when the typed parse fails. -/
def parseManifestText (content : List Char) : Except InstallError ModManifest :=
  let c1 := content.dropWhile (fun c => c = '\uFEFF')
  let c2 := stripJsonComments c1
  let c3 := fixTrailingCommas c2
  match parseJson c3 with
  | Except.error e => Except.error (InstallError.invalidManifest ("Invalid JSON syntax: " ++ e))
  | Except.ok v =>
    match v with
    | Json.obj ms =>
      match manifestFromJson (Json.obj ms) with
      | Except.ok m => Except.ok m
      | Except.error e =>
        let missing :=
          (if (jLookup ms "Name").isSome then [] else ["Name"]) ++
          (if (jLookup ms "Version").isSome then [] else ["Version"]) ++
          (if (jLookup ms "UniqueID").isSome then [] else ["UniqueID"])
        if missing.isEmpty then Except.error (InstallError.invalidManifest e)
        else Except.error (InstallError.invalidManifest
          ("Missing required fields: " ++ String.intercalate ", " missing ++ ". Error: " ++ e))
    | _ => Except.error (InstallError.invalidManifest "Manifest is not a JSON object")

/-! ## Install orchestrator (src/src-tauri/src/mod_installer.rs)

`install_from_archive` is modelled from the point where extraction has
succeeded: the scratch directory's top-level entries are given as a tree
(`FEntry`), and the on-disk state is a set of absolute paths (segment
lists) with optional file contents.  Fallible recursive copying is driven
by a fault oracle: `none` means `copy_dir_recursive` succeeds, `some (w,
msg)` means it fails with io-error `msg` after writing the relative
entries `w` below the destination. -/

/-- A directory entry of the extracted tree. -/
inductive FEntry where
  | file (name : String) (content : String)
  | dir (name : String) (children : List FEntry)

/-- File-system entry name (`DirEntry::file_name`). -/
def FEntry.name : FEntry → String
  | FEntry.file n _ => n
  | FEntry.dir n _ => n

/-- Paths-with-content model of the on-disk state: directories carry
`none`, files carry their content. -/
abbrev Fs := List (List String × Option String)

/-- Mirrors `Path::exists`. -/
def fsHas (fs : Fs) (p : List String) : Bool :=
  fs.any (fun q => q.1 = p)

/-- Content found at a path: `some none` for a directory, `some (some c)`
for a file with content `c`, `none` when the path does not exist. -/
def fsLookup (fs : Fs) (p : List String) : Option (Option String) :=
  (fs.find? (fun q => q.1 = p)).map Prod.snd

/-- Successful removal: the path and everything below it disappear. -/
def removeUnder (fs : Fs) (p : List String) : Fs :=
  fs.filter (fun q => !(p.isPrefixOf q.1))

/-- Mirrors `ModInstaller::force_remove_dir_all`: `Ok` at once when the
path does not exist; otherwise `remove_dir_all`, retried with forced
permissions, either removes the whole subtree or still returns an
`io::Error` — which existing paths fail is the oracle `faults`, and a
failed call leaves the subtree in place. -/
def forceRemoveDirAll (faults : List (List String)) (fs : Fs) (p : List String) :
    Fs × Option String :=
  if fsHas fs p then
    if faults.contains p then (fs, some "Directory not empty (os error 39)")
    else (removeUnder fs p, none)
  else (fs, none)

/-- Mirrors `fs::create_dir_all` for the one directory the orchestrator
creates at a time. -/
def createDirAll (fs : Fs) (p : List String) : Fs :=
  if fsHas fs p then fs else fs ++ [(p, none)]

mutual

/-- Paths produced below `base` when the entry is copied there. -/
def entryPaths (base : List String) : FEntry → List (List String × Option String)
  | FEntry.file n c => [(base ++ [n], some c)]
  | FEntry.dir n cs => (base ++ [n], none) :: entriesPaths (base ++ [n]) cs

/-- Paths produced below `base` when all entries are copied there. -/
def entriesPaths (base : List String) : List FEntry → List (List String × Option String)
  | [] => []
  | e :: es => entryPaths base e ++ entriesPaths base es

end

/-- Mirrors `ModInstaller::determine_install_strategy`: exactly one
top-level entry that is a directory makes that directory the install unit
and its name the target name (the caller's hint is unused on this path);
otherwise the whole scratch tree is the unit and the target name is the
hint when present, else the archive's base filename. -/
def determineInstallStrategy (entries : List FEntry) (archiveStem : String)
    (modName : Option String) : List FEntry × String :=
  match entries with
  | [FEntry.dir n cs] => (cs, n)
  | _ => (entries, modName.getD archiveStem)

/-- Install-relevant fields of `Settings` (settings.rs).  `auto_install`
and `delete_after_install` mirror the source struct.  Modelled from the
spec: the `core_frameworks` framework-name set is read by mod_installer.rs
(`settings.core_frameworks.contains(...)`) but the field is absent from
the `Settings` struct in settings.rs, so it is taken from the spec's
"framework-name set" configuration item as a list of names. -/
structure InstallSettings where
  autoInstall : Bool
  deleteAfterInstall : Bool
  coreFrameworks : List String
deriving DecidableEq, Repr

/-- Mirrors `InstallResult` (install paths as segment lists). -/
structure InstallResult where
  modName : String
  version : String
  uniqueId : String
  installPath : List String
deriving DecidableEq, Repr

/-- Inputs of one `install_from_archive` call, post-extraction: the
scratch tree, the archive's base filename, the optional display-name hint
(`mod_name`), the game path, the settings, the app-data directory and
timestamp used by `backup_mod`, the optional Nexus provenance pair, and
the io fault oracles — `copyFault` for the recursive copy, `removeFaults`
for `force_remove_dir_all`, `backupFault` for `backup_mod`. -/
structure InstallCfg where
  entries : List FEntry
  archiveStem : String
  modName : Option String
  gamePath : List String
  settings : InstallSettings
  appDataDir : List String
  timestamp : Nat
  nexusInfo : Option (Nat × Nat)
  copyFault : Option (Fs × String)
  removeFaults : List (List String)
  backupFault : Bool

/-- Install unit chosen by `determine_install_strategy`. -/
def unitOf (cfg : InstallCfg) : List FEntry :=
  (determineInstallStrategy cfg.entries cfg.archiveStem cfg.modName).1

/-- Target name chosen by `determine_install_strategy`. -/
def targetNameOf (cfg : InstallCfg) : String :=
  (determineInstallStrategy cfg.entries cfg.archiveStem cfg.modName).2

/-- Mirrors the `is_framework` check of `install_from_archive`: the
membership test uses the caller's `mod_name` hint when present and falls
back to the target name otherwise. -/
def isFrameworkOf (cfg : InstallCfg) : Bool :=
  match cfg.modName with
  | some n => cfg.settings.coreFrameworks.contains n
  | none => cfg.settings.coreFrameworks.contains (targetNameOf cfg)

/-- Mirrors `install_base`: `game_path/Mods/_Frameworks` for frameworks,
`game_path/Mods` otherwise. -/
def installBaseOf (cfg : InstallCfg) : List String :=
  if isFrameworkOf cfg then cfg.gamePath ++ ["Mods", "_Frameworks"]
  else cfg.gamePath ++ ["Mods"]

/-- Mirrors `install_path = install_base.join(&target_name)`. -/
def installPathOf (cfg : InstallCfg) : List String :=
  installBaseOf cfg ++ [targetNameOf cfg]

/-- Mirrors the backup location of `backup_mod`:
`app_data/backups/<unique_id>/<timestamp>`. -/
def backupPathOf (cfg : InstallCfg) : List String :=
  cfg.appDataDir ++ ["backups", targetNameOf cfg, toString cfg.timestamp]

/-- Mirrors `ModInstaller::backup_mod` (via `create_dir_all` and
`copy_dir_all`, both returning `io::Result`): create the timestamped
backup directory and copy everything below the mod path into it,
preserving relative structure.  `fault = true` renders an `io::Error`
from either call, with nothing durably written. -/
def backupMod (fault : Bool) (fs : Fs) (modPath backupPath : List String) :
    Fs × Option String :=
  if fault then (fs, some "Permission denied (os error 13)")
  else
    let fs1 := createDirAll fs backupPath
    (fs1 ++ (fs.filter (fun q => modPath.isPrefixOf q.1 && !(q.1 = modPath : Bool))).map
      (fun q => (backupPath ++ q.1.drop modPath.length, q.2)), none)

/-- Mirrors `ModInstaller::install_mod_files_with_rollback`: create the
destination, then copy recursively; when the copy fails partway the
partially written entries and the destination are force-removed with the
removal's own result discarded (`let _ =`, mod_installer.rs:467) and the
copy error is returned. -/
def installModFilesWithRollback (removeFaults : List (List String)) (fs : Fs)
    (unit : List FEntry) (destination : List String) (fault : Option (Fs × String)) :
    Option InstallError × Fs :=
  let fs1 := createDirAll fs destination
  match fault with
  | none => (none, fs1 ++ entriesPaths destination unit)
  | some f =>
    (some (InstallError.ioError f.2),
     (forceRemoveDirAll removeFaults
       (fs1 ++ f.1.map (fun q => (destination ++ q.1, q.2))) destination).1)

/-- First top-level entry named `manifest.json` of the install unit, as
the installed location will expose it: `some (some c)` a file with
content `c`, `some none` a directory of that name, `none` absent. -/
def unitManifest (unit : List FEntry) : Option (Option String) :=
  (unit.find? (fun e => e.name = "manifest.json")).map
    (fun e => match e with
      | FEntry.file _ c => some c
      | FEntry.dir _ _ => none)

/-- Mirrors the manifest recovery of `install_from_archive` (lines
146-154): when `install_path/manifest.json` exists and parses, take its
`version`/`unique_id`; on absence, a directory of that name (whose
`File::open` fails), or any parse error, fall back to `"Unknown"` and the
target name. -/
def manifestVersionId (fs2 : Fs) (manifestPath : List String) (targetName : String) :
    String × String :=
  if fsHas fs2 manifestPath then
    match fsLookup fs2 manifestPath with
    | some (some content) =>
      match parseManifestText content.data with
      | Except.ok m => (m.version, m.uniqueId)
      | Except.error _ => ("Unknown", targetName)
    | _ => ("Unknown", targetName)
  else ("Unknown", targetName)

/-- Mirrors `ModInstaller::install_from_archive` after a successful
extraction, returning the result of the call and the resulting on-disk
state.  Steps in source order: strategy, framework check, install path;
for an existing install, `backup_mod` with its error only logged
(mod_installer.rs:107-109) and `force_remove_dir_all` whose error
propagates as `IoError` (line 111, `?`); the `auto_install` gate, copy
with rollback, scratch cleanup and optional archive deletion (both
outside the modelled file set), manifest recovery from the installed
location, the best-effort `.nexus_meta` sidecar, and the success
record. -/
def installFromArchive (cfg : InstallCfg) (fs : Fs) :
    Except InstallError InstallResult × Fs :=
  let targetName := targetNameOf cfg
  let installPath := installPathOf cfg
  let pre : Fs × Option String :=
    if fsHas fs installPath then
      forceRemoveDirAll cfg.removeFaults
        (backupMod cfg.backupFault fs installPath (backupPathOf cfg)).1 installPath
    else (fs, none)
  match pre.2 with
  | some e => (Except.error (InstallError.ioError e), pre.1)
  | none =>
    let fs1 := pre.1
    if cfg.settings.autoInstall then
      match installModFilesWithRollback cfg.removeFaults fs1 (unitOf cfg)
          installPath cfg.copyFault with
      | (some e, fs2) => (Except.error e, fs2)
      | (none, fs2) =>
        let vu := manifestVersionId fs2 (installPath ++ ["manifest.json"]) targetName
        let fs3 :=
          match cfg.nexusInfo with
          | some _ => fs2 ++ [(installPath ++ [".nexus_meta"], some "nexus meta")]
          | none => fs2
        (Except.ok { modName := cfg.modName.getD targetName, version := vu.1,
                     uniqueId := vu.2, installPath := installPath }, fs3)
    else
      (Except.error (InstallError.installationFailed "Auto-install is disabled"), fs1)

/-! ## Decorated-manifest templates for the normalisation claims

A family of manifests with symbolic field contents: the clean rendering is
plain JSON, the decorated rendering adds a UTF-8 BOM, a `//` line comment,
a `/* */` block comment, and a trailing comma (in the handled
comma-newline-brace form).  Field contents range over characters that are
inert for every phase: no quote, backslash, slash or comma, and no control
characters. -/

/-- Characters allowed in the symbolic manifest fields. -/
def SafeFieldChar (c : Char) : Prop :=
  c ≠ '"' ∧ c ≠ '\\' ∧ c ≠ '/' ∧ c ≠ ',' ∧ 0x20 ≤ c.toNat

instance (c : Char) : Decidable (SafeFieldChar c) := by
  unfold SafeFieldChar
  infer_instance

/-- Template chunk: open brace, `"Name":` and the opening value quote. -/
def tplHead : List Char := ['{', '"', 'N', 'a', 'm', 'e', '"', ':', '"']

/-- Template chunk: closing value quote and member comma. -/
def tplQComma : List Char := ['"', ',']

/-- Template chunk: the line comment `//c` and its newline. -/
def tplLineC : List Char := ['/', '/', 'c', '\n']

/-- Template chunk: `"Version":` and the opening value quote. -/
def tplKeyV : List Char := ['"', 'V', 'e', 'r', 's', 'i', 'o', 'n', '"', ':', '"']

/-- Template chunk: the block comment. -/
def tplBlockC : List Char := ['/', '*', 'b', '*', '/']

/-- Template chunk: `"UniqueID":` and the opening value quote. -/
def tplKeyU : List Char := ['"', 'U', 'n', 'i', 'q', 'u', 'e', 'I', 'D', '"', ':', '"']

/-- The trailing-comma separators handled by the three brace-directed
`str::replace` patterns of `fix_trailing_commas`: the comma and the
closing brace are separated by a newline (`",\n}"`), a CRLF pair
(`",\r\n}"`), or a single space (`", }"`). -/
def CommaSep (w : List Char) : Prop :=
  w = ['\n'] ∨ w = ['\r', '\n'] ∨ w = [' ']

instance (w : List Char) : Decidable (CommaSep w) := by
  unfold CommaSep
  infer_instance

/-- Template chunk: closing quote, trailing comma, separator, brace. -/
def tplEndD (w : List Char) : List Char := '"' :: ',' :: (w ++ ['}'])

/-- Template chunk after the comma fix: closing quote, separator, brace. -/
def tplEndN (w : List Char) : List Char := '"' :: (w ++ ['}'])

/-- Template chunk: closing quote and brace. -/
def tplEndClean : List Char := ['"', '}']

/-- Clean JSON rendering of the three required fields. -/
def cleanManifestText (n v u : List Char) : List Char :=
  tplHead ++ n ++ tplQComma ++ tplKeyV ++ v ++ tplQComma ++ tplKeyU ++ u ++ tplEndClean

/-- Decorated rendering without the BOM: a line comment after the first
member, a block comment after the second, and a trailing comma in one of
the handled brace forms (separator `w`). -/
def decoratedBody (w n v u : List Char) : List Char :=
  tplHead ++ n ++ tplQComma ++ tplLineC ++ tplKeyV ++ v ++ tplQComma ++ tplBlockC
    ++ tplKeyU ++ u ++ tplEndD w

/-- Decorated rendering: a UTF-8 BOM followed by the decorated body. -/
def decoratedManifestText (w n v u : List Char) : List Char :=
  '\uFEFF' :: decoratedBody w n v u

/-- The decorated body after comment stripping: the line comment leaves
its newline, the block comment becomes one space. -/
def normManifestText (w n v u : List Char) : List Char :=
  tplHead ++ n ++ tplQComma ++ ['\n'] ++ tplKeyV ++ v ++ tplQComma ++ [' ']
    ++ tplKeyU ++ u ++ tplEndD w

/-- The stripped body after the trailing-comma fix. -/
def norm2ManifestText (w n v u : List Char) : List Char :=
  tplHead ++ n ++ tplQComma ++ ['\n'] ++ tplKeyV ++ v ++ tplQComma ++ [' ']
    ++ tplKeyU ++ u ++ tplEndN w

/-- The manifest both renderings denote. -/
def renderedManifest (n v u : List Char) : ModManifest :=
  { name := String.mk n, author := "Unknown", version := String.mk v,
    uniqueId := String.mk u, description := none, dependencies := none,
    contentPackFor := none }

/-- String-state parity after scanning a chunk: flipped at every quote. -/
def flipQuotes (s : List Char) (i : Bool) : Bool :=
  s.foldl (fun b c => if c = '"' then !b else b) i

/-- Decidable occurrence-freedom of a pattern relative to a concrete
chunk: every non-empty suffix of the chunk either already refutes the
pattern (when long enough) or is itself no prefix of the pattern, so no
occurrence can start inside the chunk whatever follows it. -/
def chunkOk (pat chunk : List Char) : Bool :=
  chunk.tails.all (fun t =>
    t.isEmpty ||
      (if pat.length ≤ t.length then !(pat.isPrefixOf t) else !(t.isPrefixOf pat)))

/-- No occurrence of `pat` starts inside `s` when `tail` follows it. -/
def NoPatB (pat s tail : List Char) : Prop :=
  ∀ t, t <:+ s → t ≠ [] → ¬ pat <+: (t ++ tail)

/-- Decidable equality of parse results, used to evaluate the pipeline on
concrete inputs. -/
instance : DecidableEq (Except InstallError ModManifest) := fun a b =>
  match a, b with
  | Except.ok x, Except.ok y =>
    if h : x = y then Decidable.isTrue (by rw [h])
    else Decidable.isFalse (by intro hc; injection hc with h2; exact h h2)
  | Except.error x, Except.error y =>
    if h : x = y then Decidable.isTrue (by rw [h])
    else Decidable.isFalse (by intro hc; injection hc with h2; exact h h2)
  | Except.ok _, Except.error _ => Decidable.isFalse (by intro hc; exact Except.noConfusion hc)
  | Except.error _, Except.ok _ => Decidable.isFalse (by intro hc; exact Except.noConfusion hc)

/-- Concrete settings whose framework-name set is exactly `CoolMod`. -/
def settingsFrameworks : InstallSettings :=
  { autoInstall := true, deleteAfterInstall := false, coreFrameworks := ["CoolMod"] }

/-- Concrete install call: a single top-level folder `CoolMod` — a member
of the framework set — together with a caller hint `Other` that is not a
member. -/
def cfgFrameworkHint : InstallCfg :=
  { entries := [FEntry.dir "CoolMod" [FEntry.file "a.txt" "x"]],
    archiveStem := "arc", modName := some "Other", gamePath := ["Game"],
    settings := settingsFrameworks,
    appDataDir := ["AppData"], timestamp := 7, nexusInfo := none, copyFault := none,
    removeFaults := [], backupFault := false }

/-- Concrete install call whose recursive copy fails after writing one
file below the destination. -/
def cfgCopyFault : InstallCfg :=
  { entries := [FEntry.dir "CoolMod" [FEntry.file "a.txt" "x"]],
    archiveStem := "arc", modName := none, gamePath := ["Game"],
    settings := { autoInstall := true, deleteAfterInstall := false, coreFrameworks := [] },
    appDataDir := ["AppData"], timestamp := 7, nexusInfo := none,
    copyFault := some ([(["f.txt"], some "y")], "disk full"),
    removeFaults := [], backupFault := false }

/-- Concrete install call whose recursive copy fails after writing one
file below the destination and whose rollback removal of the destination
`Game/Mods/CoolMod` also fails. -/
def cfgCopyFaultNoRollback : InstallCfg :=
  { entries := [FEntry.dir "CoolMod" [FEntry.file "a.txt" "x"]],
    archiveStem := "arc", modName := none, gamePath := ["Game"],
    settings := { autoInstall := true, deleteAfterInstall := false, coreFrameworks := [] },
    appDataDir := ["AppData"], timestamp := 7, nexusInfo := none,
    copyFault := some ([(["f.txt"], some "y")], "disk full"),
    removeFaults := [["Game", "Mods", "CoolMod"]], backupFault := false }

/-- Concrete install call with auto-install disabled. -/
def cfgAutoOff : InstallCfg :=
  { entries := [FEntry.dir "CoolMod" [FEntry.file "a.txt" "x"]],
    archiveStem := "arc", modName := none, gamePath := ["Game"],
    settings := { autoInstall := false, deleteAfterInstall := false, coreFrameworks := [] },
    appDataDir := ["AppData"], timestamp := 7, nexusInfo := none, copyFault := none,
    removeFaults := [], backupFault := false }

/-- Concrete install call with auto-install disabled whose backup copy
fails (only logged) and whose removal of the existing install at
`Game/Mods/CoolMod` also fails. -/
def cfgAutoOffRemoveFault : InstallCfg :=
  { entries := [FEntry.dir "CoolMod" [FEntry.file "a.txt" "x"]],
    archiveStem := "arc", modName := none, gamePath := ["Game"],
    settings := { autoInstall := false, deleteAfterInstall := false, coreFrameworks := [] },
    appDataDir := ["AppData"], timestamp := 7, nexusInfo := none, copyFault := none,
    removeFaults := [["Game", "Mods", "CoolMod"]], backupFault := true }

/-- The pre-existing install the faulted disabled call runs against. -/
def fsPrior : Fs :=
  [(["Game", "Mods", "CoolMod"], none),
   (["Game", "Mods", "CoolMod", "old.txt"], some "v1")]

/-- Concrete install call whose unit carries a manifest that is not valid
JSON. -/
def cfgBadManifest : InstallCfg :=
  { entries := [FEntry.dir "M" [FEntry.file "manifest.json" "not json"]],
    archiveStem := "arc", modName := none, gamePath := ["G"],
    settings := { autoInstall := true, deleteAfterInstall := false, coreFrameworks := [] },
    appDataDir := ["A"], timestamp := 1, nexusInfo := none, copyFault := none,
    removeFaults := [], backupFault := false }

theorem length_eraseP_of_any {α : Type} (p : α → Bool) (l : List α)
    (h : l.any p = true) : (l.eraseP p).length + 1 = l.length := by
  induction l with
  | nil => simp at h
  | cons a as ih =>
    by_cases ha : p a = true
    · rw [List.eraseP_cons, ha, cond_true, List.length_cons]
    · have ha' : p a = false := by simpa using ha
      rw [List.eraseP_cons, ha', cond_false]
      have h2 : as.any p = true := by
        rcases List.any_eq_true.mp h with ⟨x, hx, hpx⟩
        rcases List.mem_cons.mp hx with h' | h'
        · subst h'; rw [ha'] at hpx; exact absurd hpx (by decide)
        · exact List.any_eq_true.mpr ⟨x, h', hpx⟩
      simp only [List.length_cons, ← ih h2]

theorem tdmStep_permits (maxC : Nat) (s : TDMState)
    (h : s.permits + heldPermits s = maxC) (e : TDMEvent) :
    (tdmStep s e).permits + heldPermits (tdmStep s e) = maxC := by
  cases e with
  | submit id =>
    simp only [tdmStep, tdmSubmit]
    split
    · exact h
    · simpa [heldPermits] using h
  | acquire =>
    simp only [tdmStep, tdmAcquire]
    by_cases hp : s.permits = 0
    · rw [if_pos hp]; exact h
    · rw [if_neg hp]
      simp only [heldPermits] at h ⊢
      omega
  | findTask =>
    simp only [tdmStep, tdmFindTask]
    by_cases hn : s.nFind = 0
    · rw [if_pos hn]; exact h
    · rw [if_neg hn]
      cases s.queue.find? (fun t => t.status = DStatus.queued) with
      | some t =>
        simp only [heldPermits, List.length_append, List.length_cons,
          List.length_nil] at h ⊢
        omega
      | none =>
        simp only [heldPermits] at h ⊢
        omega
  | insertActive id =>
    simp only [tdmStep, tdmInsertActive]
    by_cases hg : s.pIns.any (fun x => x = id) = true
    · rw [if_pos hg]
      have hl := length_eraseP_of_any (fun x => x = id) s.pIns hg
      simp only [heldPermits, List.length_append, List.length_cons,
        List.length_nil] at h ⊢
      omega
    · rw [if_neg hg]; exact h
  | markQueue id =>
    simp only [tdmStep, tdmMarkQueue]
    by_cases hg : s.pMark.any (fun x => x = id) = true
    · rw [if_pos hg]
      have hl := length_eraseP_of_any (fun x => x = id) s.pMark hg
      simp only [heldPermits, List.length_append, List.length_cons,
        List.length_nil] at h ⊢
      omega
    · rw [if_neg hg]; exact h
  | finishDrop id res =>
    simp only [tdmStep, tdmFinishDrop]
    by_cases hg : s.eRun.any (fun x => x = id) = true
    · rw [if_pos hg]
      have hl := length_eraseP_of_any (fun x => x = id) s.eRun hg
      simp only [heldPermits] at h ⊢
      omega
    · rw [if_neg hg]; exact h
  | updQueue id =>
    simp only [tdmStep, tdmUpdQueue]
    cases s.eUpd.find? (fun p => p.1 = id) with
    | some p => simpa [heldPermits] using h
    | none => exact h
  | remActive id =>
    simp only [tdmStep, tdmRemActive]
    by_cases hg : s.eRem.any (fun p => p.1 = id) = true
    · rw [if_pos hg]; simpa [heldPermits] using h
    · rw [if_neg hg]; exact h
  | cancelQueue id =>
    simp only [tdmStep, tdmCancelQueue]
    by_cases hg : s.queue.any (fun t => t.id = id) = true
    · rw [if_pos hg]; simpa [heldPermits] using h
    · rw [if_neg hg]; simpa [heldPermits] using h
  | cancelActive id =>
    simp only [tdmStep, tdmCancelActive]
    by_cases hg : s.cPend.any (fun x => x = id) = true
    · rw [if_pos hg]; simpa [heldPermits] using h
    · rw [if_neg hg]; exact h
  | clearCompleted =>
    simp only [tdmStep, tdmClearCompleted]
    simpa [heldPermits] using h

theorem tdmRun_permits (maxC : Nat) (events : List TDMEvent) :
    (tdmRun maxC events).permits + heldPermits (tdmRun maxC events) = maxC := by
  have hgen : ∀ (l : List TDMEvent) (s : TDMState),
      s.permits + heldPermits s = maxC →
      (l.foldl tdmStep s).permits + heldPermits (l.foldl tdmStep s) = maxC := by
    intro l
    induction l with
    | nil => intro s hs; simpa using hs
    | cons e es ih => intro s hs; exact ih (tdmStep s e) (tdmStep_permits maxC s hs e)
  exact hgen events (tdmInit maxC) (by simp [tdmInit, heldPermits])

/-! ## File-system model lemmas -/

theorem removeUnder_clean (fs : Fs) (p : List String) :
    ∀ q ∈ removeUnder fs p, p.isPrefixOf q.1 = false := by
  intro q hq
  have h := (List.mem_filter.mp hq).2
  simpa using h

theorem removeUnder_subset (fs : Fs) (p : List String) :
    ∀ q ∈ removeUnder fs p, q ∈ fs := by
  intro q hq
  exact (List.mem_filter.mp hq).1

theorem fsHas_eq_isSome (fs : Fs) (p : List String) :
    fsHas fs p = (fsLookup fs p).isSome := by
  induction fs with
  | nil => rfl
  | cons q qs ih =>
    by_cases h : q.1 = p
    · simp [fsHas, fsLookup, List.find?_cons, h]
    · simp only [fsHas, fsLookup, List.any_cons, List.find?_cons] at ih ⊢
      simp [h, ih]

theorem fsHas_append_left (fs l : Fs) (p : List String) (h : fsHas fs p = true) :
    fsHas (fs ++ l) p = true := by
  unfold fsHas at h ⊢
  rw [List.any_append, h, Bool.true_or]

theorem fsHas_createDirAll_of (fs : Fs) (p p' : List String) (h : fsHas fs p = true) :
    fsHas (createDirAll fs p') p = true := by
  unfold createDirAll
  by_cases h2 : fsHas fs p'
  · rw [if_pos h2]; exact h
  · rw [if_neg h2]; exact fsHas_append_left fs _ p h

theorem fsHas_createDirAll_append (fs l : Fs) (p : List String) :
    fsHas (createDirAll fs p ++ l) p = true := by
  unfold createDirAll
  by_cases h : fsHas fs p
  · rw [if_pos h]; exact fsHas_append_left fs l p h
  · rw [if_neg h]
    unfold fsHas
    rw [List.append_assoc, List.any_append]
    have hr : (([(p, (none : Option String))] : Fs) ++ l).any (fun q => q.1 = p) = true := by
      simp
    rw [hr, Bool.or_true]

theorem fsHas_backupMod (b : Bool) (fs : Fs) (mp bp p : List String)
    (h : fsHas fs p = true) :
    fsHas (backupMod b fs mp bp).1 p = true := by
  cases b with
  | true => simpa [backupMod] using h
  | false =>
    simp only [backupMod, Bool.false_eq_true, if_false]
    exact fsHas_append_left _ _ p (fsHas_createDirAll_of fs p bp h)

theorem forceRemove_noFault (faults : List (List String)) (fs : Fs) (p : List String)
    (hf : faults.contains p = false) (hh : fsHas fs p = true) :
    forceRemoveDirAll faults fs p = (removeUnder fs p, none) := by
  unfold forceRemoveDirAll
  rw [if_pos hh, if_neg (by rw [hf]; exact Bool.false_ne_true)]

theorem not_prefix_append_of_incomp {a b : List String}
    (h1 : ¬ a <+: b) (h2 : ¬ b <+: a) (r : List String) : ¬ a <+: b ++ r := by
  intro h
  rcases le_or_lt a.length b.length with hle | hlt
  · exact h1 (List.prefix_of_prefix_length_le h (List.prefix_append b r) hle)
  · exact h2 (List.prefix_of_prefix_length_le (List.prefix_append b r) h (Nat.le_of_lt hlt))

mutual

theorem entryPaths_extends (b : List String) (e : FEntry) :
    ∀ q ∈ entryPaths b e, b.length < q.1.length ∧ b <+: q.1 :=
  match e with
  | FEntry.file n _ => by
    intro q hq
    simp only [entryPaths, List.mem_singleton] at hq
    subst hq
    exact ⟨by simp, List.prefix_append b [n]⟩
  | FEntry.dir n cs => by
    intro q hq
    rw [entryPaths] at hq
    rcases List.mem_cons.mp hq with h | h
    · subst h; exact ⟨by simp, List.prefix_append b [n]⟩
    · have hrec := entriesPaths_extends (b ++ [n]) cs q h
      refine ⟨?_, List.IsPrefix.trans (List.prefix_append b [n]) hrec.2⟩
      have hlen := hrec.1
      simp only [List.length_append, List.length_cons, List.length_nil] at hlen
      omega

theorem entriesPaths_extends (b : List String) (es : List FEntry) :
    ∀ q ∈ entriesPaths b es, b.length < q.1.length ∧ b <+: q.1 :=
  match es with
  | [] => by intro q hq; simp [entriesPaths] at hq
  | e :: rest => by
    intro q hq
    rw [entriesPaths] at hq
    rcases List.mem_append.mp hq with h | h
    · exact entryPaths_extends b e q h
    · exact entriesPaths_extends b rest q h

end

theorem entriesPaths_manifest_lookup (base : List String) :
    ∀ unit : List FEntry,
      fsLookup (entriesPaths base unit) (base ++ ["manifest.json"]) = unitManifest unit := by
  intro unit
  induction unit with
  | nil => rfl
  | cons e es ih =>
    have hdeep : ∀ (n : String) (cs : List FEntry),
        (entriesPaths (base ++ [n]) cs).find?
          (fun q => q.1 = base ++ ["manifest.json"]) = none := by
      intro n cs
      apply List.find?_eq_none.mpr
      intro q hq hpred
      have hext := (entriesPaths_extends (base ++ [n]) cs q hq).1
      have heq : q.1 = base ++ ["manifest.json"] := by simpa using hpred
      rw [heq] at hext
      simp only [List.length_append, List.length_cons, List.length_nil] at hext
      omega
    cases e with
    | file n c =>
      by_cases h : n = "manifest.json"
      · subst h
        simp [entriesPaths, entryPaths, fsLookup, unitManifest, List.find?_cons, FEntry.name]
      · have hne : ¬ (base ++ [n] = base ++ ["manifest.json"]) := by
          simpa using h
        have l1 : fsLookup (entriesPaths base (FEntry.file n c :: es))
            (base ++ ["manifest.json"])
            = fsLookup (entriesPaths base es) (base ++ ["manifest.json"]) := by
          rw [entriesPaths, entryPaths, List.singleton_append]
          unfold fsLookup
          rw [List.find?_cons_of_neg _ (by simpa using hne)]
        have l2 : unitManifest (FEntry.file n c :: es) = unitManifest es := by
          unfold unitManifest
          rw [List.find?_cons_of_neg _ (by simpa [FEntry.name] using h)]
        rw [l1, l2]
        exact ih
    | dir n cs =>
      by_cases h : n = "manifest.json"
      · subst h
        simp [entriesPaths, entryPaths, fsLookup, unitManifest, List.find?_cons, FEntry.name]
      · have hne : ¬ (base ++ [n] = base ++ ["manifest.json"]) := by
          simpa using h
        have l1 : fsLookup (entriesPaths base (FEntry.dir n cs :: es))
            (base ++ ["manifest.json"])
            = fsLookup (entriesPaths base es) (base ++ ["manifest.json"]) := by
          rw [entriesPaths, entryPaths, List.cons_append]
          unfold fsLookup
          rw [List.find?_cons_of_neg _ (by simpa using hne), List.find?_append,
            hdeep n cs, Option.none_or]
        have l2 : unitManifest (FEntry.dir n cs :: es) = unitManifest es := by
          unfold unitManifest
          rw [List.find?_cons_of_neg _ (by simpa [FEntry.name] using h)]
        rw [l1, l2]
        exact ih

/-! ## Occurrence-freedom lemmas for the `str::replace` model -/

theorem prefix_trim (pat t X : List Char) (hlen : pat.length ≤ t.length)
    (h : pat <+: t ++ X) : pat <+: t := by
  rcases h with ⟨r, hr⟩
  have h1 : (pat ++ r).take pat.length = pat := List.take_left pat r
  rw [hr, List.take_append_of_le_length hlen] at h1
  rw [← h1]
  exact List.take_prefix _ _

theorem prefix_flip (pat t X : List Char) (hlen : t.length ≤ pat.length)
    (h : pat <+: t ++ X) : t <+: pat := by
  rcases h with ⟨r, hr⟩
  have h1 : (t ++ X).take t.length = t := List.take_left t X
  rw [← hr, List.take_append_of_le_length hlen] at h1
  rw [← h1]
  exact List.take_prefix _ _

theorem noPatB_nil (pat tail : List Char) : NoPatB pat [] tail := by
  intro t ht hne
  exact absurd (List.suffix_nil.mp ht) hne

theorem noPatB_cons {pat s tail : List Char} {c : Char}
    (h1 : ¬ pat <+: (c :: (s ++ tail))) (h2 : NoPatB pat s tail) :
    NoPatB pat (c :: s) tail := by
  intro t ht hne
  rcases List.suffix_cons_iff.mp ht with h | h
  · subst h
    simpa using h1
  · exact h2 t h hne

theorem not_prefix_head {pat t : List Char} {a b : Char}
    (hp : pat.head? = some a) (ht : t.head? = some b) (hne : a ≠ b) :
    ¬ pat <+: t := by
  intro h
  cases pat with
  | nil => simp at hp
  | cons p ps =>
    cases t with
    | nil => simp at ht
    | cons q qs =>
      simp at hp ht
      subst hp
      subst ht
      exact hne (List.cons_prefix_cons.mp h).1

theorem noPatB_field {pat s tail : List Char} (n : List Char)
    (hn : ∀ c ∈ n, c ≠ ',') (hpat : pat.head? = some ',')
    (hs : NoPatB pat s tail) : NoPatB pat (n ++ s) tail := by
  induction n with
  | nil => simpa using hs
  | cons c cs ih =>
    rw [List.cons_append]
    refine noPatB_cons ?_ (ih (fun x hx => hn x (List.mem_cons_of_mem _ hx)))
    exact not_prefix_head hpat rfl (fun hc => hn c (List.mem_cons_self _ _) hc.symm)

theorem noPatB_chunk {pat tail : List Char} (chunk : List Char)
    (hok : chunkOk pat chunk = true) :
    ∀ {s : List Char}, NoPatB pat s tail → NoPatB pat (chunk ++ s) tail := by
  induction chunk with
  | nil => intro s hs; simpa using hs
  | cons c cs ih =>
    intro s hs
    have hok' := hok
    rw [chunkOk, List.tails_cons, List.all_cons] at hok'
    rw [Bool.and_eq_true] at hok'
    have hhead := hok'.1
    have htail : chunkOk pat cs = true := hok'.2
    rw [List.cons_append]
    refine noPatB_cons ?_ (ih htail hs)
    simp only [List.isEmpty_cons, Bool.false_or] at hhead
    intro hcon
    by_cases hlen : pat.length ≤ (c :: cs).length
    · rw [if_pos hlen] at hhead
      have : pat <+: (c :: cs) :=
        prefix_trim pat (c :: cs) (s ++ tail) hlen (by simpa using hcon)
      rw [← List.isPrefixOf_iff_prefix] at this
      simp [this] at hhead
    · rw [if_neg hlen] at hhead
      have : (c :: cs) <+: pat :=
        prefix_flip pat (c :: cs) (s ++ tail) (by omega) (by simpa using hcon)
      rw [← List.isPrefixOf_iff_prefix] at this
      simp [this] at hhead

theorem noPatB_chunk_only {pat tail : List Char} (chunk : List Char)
    (hok : chunkOk pat chunk = true) : NoPatB pat chunk tail := by
  have h := noPatB_chunk chunk hok (noPatB_nil pat tail)
  simpa using h

theorem noPatB_shape (pat tail c0 c1 c2 c3 n v u : List Char)
    (hpat : pat.head? = some ',')
    (h0 : chunkOk pat c0 = true) (h1 : chunkOk pat c1 = true)
    (h2 : chunkOk pat c2 = true) (h3 : chunkOk pat c3 = true)
    (hn : ∀ c ∈ n, c ≠ ',') (hv : ∀ c ∈ v, c ≠ ',') (hu : ∀ c ∈ u, c ≠ ',') :
    NoPatB pat (c0 ++ (n ++ (c1 ++ (v ++ (c2 ++ (u ++ c3)))))) tail := by
  refine noPatB_chunk c0 h0 ?_
  refine noPatB_field n hn hpat ?_
  refine noPatB_chunk c1 h1 ?_
  refine noPatB_field v hv hpat ?_
  refine noPatB_chunk c2 h2 ?_
  refine noPatB_field u hu hpat ?_
  exact noPatB_chunk_only c3 h3

theorem replaceGo_nil (pat repl : List Char) (fuel : Nat) :
    replaceGo fuel pat repl [] = [] := by
  cases fuel <;> rfl

theorem replaceGo_skip (pat repl : List Char) :
    ∀ (a rest : List Char) (fuel : Nat), a.length ≤ fuel →
      NoPatB pat a rest →
      replaceGo fuel pat repl (a ++ rest) = a ++ replaceGo (fuel - a.length) pat repl rest := by
  intro a
  induction a with
  | nil => intro rest fuel _ _; simp
  | cons c cs ih =>
    intro rest fuel hf hno
    cases fuel with
    | zero => simp at hf
    | succ f =>
      have hnp : ¬ pat <+: ((c :: cs) ++ rest) :=
        hno (c :: cs) (List.suffix_refl _) (by simp)
      have hb : pat.isPrefixOf ((c :: cs) ++ rest) = false := by
        rw [Bool.eq_false_iff]
        intro hcon
        exact hnp (List.isPrefixOf_iff_prefix.mp hcon)
      rw [List.cons_append, replaceGo]
      simp only [List.cons_append] at hb
      rw [hb]
      simp only [Bool.false_eq_true, if_false]
      rw [ih rest f (by simpa using hf)
        (fun t ht hne => hno t (ht.trans (List.suffix_cons c cs)) hne)]
      simp [Nat.succ_sub_succ]

theorem replaceAll_id_of (pat repl s : List Char)
    (h : NoPatB pat s []) : replaceAll pat repl s = s := by
  unfold replaceAll
  have := replaceGo_skip pat repl s [] (s.length + 1) (by omega)
    (by intro t ht hne; simpa using h t ht hne)
  simpa [replaceGo_nil] using this

theorem replaceAll_tail (pat repl A : List Char) (hpat : pat ≠ [])
    (hA : NoPatB pat A pat) :
    replaceAll pat repl (A ++ pat) = A ++ repl := by
  unfold replaceAll
  rw [replaceGo_skip pat repl A pat ((A ++ pat).length + 1) (by simp; omega) hA]
  have hfuel : (A ++ pat).length + 1 - A.length = pat.length + 1 := by
    simp [List.length_append]
    omega
  rw [hfuel]
  cases pat with
  | nil => exact absurd rfl hpat
  | cons p ps =>
    rw [replaceGo]
    have hself : (p :: ps).isPrefixOf (p :: ps) = true := by
      rw [List.isPrefixOf_iff_prefix]
    rw [hself]
    simp [replaceGo_nil]

/-! ## Symbolic evaluation of `strip_json_comments` on the templates -/

theorem stripGo_step (f : Nat) (c : Char) (cs : List Char) (instr : Bool)
    (h1 : c ≠ '\\') (h2 : c ≠ '/') :
    stripGo (f + 1) (c :: cs) instr false =
      c :: stripGo f cs (if c = '"' then !instr else instr) false := by
  by_cases hq : c = '"'
  · subst hq
    simp [stripGo]
  · simp [stripGo, hq, h1, h2]

theorem stripGo_id (s : List Char) (hs : ∀ c ∈ s, c ≠ '\\' ∧ c ≠ '/') :
    ∀ (instr : Bool) (fuel : Nat), s.length < fuel → stripGo fuel s instr false = s := by
  induction s with
  | nil =>
    intro instr fuel hf
    cases fuel with
    | zero => omega
    | succ f => rfl
  | cons c cs ih =>
    intro instr fuel hf
    cases fuel with
    | zero => omega
    | succ f =>
      have hc := hs c (List.mem_cons_self _ _)
      rw [stripGo_step f c cs instr hc.1 hc.2]
      rw [ih (fun x hx => hs x (List.mem_cons_of_mem _ hx)) _ f (by simp at hf; omega)]

theorem flipQuotes_cons (c : Char) (cs : List Char) (i : Bool) :
    flipQuotes (c :: cs) i = flipQuotes cs (if c = '"' then !i else i) := by
  simp [flipQuotes]

theorem flipQuotes_no_quote (s : List Char) (hs : ∀ c ∈ s, c ≠ '"') (i : Bool) :
    flipQuotes s i = i := by
  induction s with
  | nil => rfl
  | cons c cs ih =>
    rw [flipQuotes_cons, if_neg (hs c (List.mem_cons_self _ _))]
    exact ih (fun x hx => hs x (List.mem_cons_of_mem _ hx))

theorem stripGo_chunk (s : List Char) (hs : ∀ c ∈ s, c ≠ '\\' ∧ c ≠ '/') :
    ∀ (instr : Bool) (rest : List Char) (fuel : Nat), s.length ≤ fuel →
      stripGo fuel (s ++ rest) instr false
        = s ++ stripGo (fuel - s.length) rest (flipQuotes s instr) false := by
  induction s with
  | nil => intro instr rest fuel _; simp [flipQuotes]
  | cons c cs ih =>
    intro instr rest fuel hf
    cases fuel with
    | zero => simp at hf
    | succ f =>
      have hc := hs c (List.mem_cons_self _ _)
      rw [List.cons_append, stripGo_step f c (cs ++ rest) instr hc.1 hc.2]
      rw [ih (fun x hx => hs x (List.mem_cons_of_mem _ hx)) _ rest f (by simp at hf; omega)]
      rw [flipQuotes_cons]
      simp [Nat.succ_sub_succ]

theorem stripGo_lineC (rest : List Char) (fuel : Nat) (h : 0 < fuel) :
    stripGo fuel (tplLineC ++ rest) false false
      = '\n' :: stripGo (fuel - 1) rest false false := by
  cases fuel with
  | zero => omega
  | succ f =>
    rw [tplLineC, List.cons_append, List.cons_append, List.cons_append,
      List.cons_append]
    simp [stripGo, consumeLineComment]

theorem stripGo_blockC (rest : List Char) (fuel : Nat) (h : 0 < fuel) :
    stripGo fuel (tplBlockC ++ rest) false false
      = ' ' :: stripGo (fuel - 1) rest false false := by
  cases fuel with
  | zero => omega
  | succ f =>
    rw [tplBlockC, List.cons_append, List.cons_append, List.cons_append,
      List.cons_append, List.cons_append]
    simp [stripGo, consumeBlockComment]

theorem chars_append {P : Char → Prop} {a b : List Char}
    (ha : ∀ c ∈ a, P c) (hb : ∀ c ∈ b, P c) : ∀ c ∈ a ++ b, P c := by
  intro c hc
  rcases List.mem_append.mp hc with h | h
  · exact ha c h
  · exact hb c h

theorem safe_no_slash {s : List Char} (hs : ∀ c ∈ s, SafeFieldChar c) :
    ∀ c ∈ s, c ≠ '\\' ∧ c ≠ '/' :=
  fun c hc => ⟨(hs c hc).2.1, (hs c hc).2.2.1⟩

theorem safe_no_quote {s : List Char} (hs : ∀ c ∈ s, SafeFieldChar c) :
    ∀ c ∈ s, c ≠ '"' :=
  fun c hc => (hs c hc).1

theorem safe_no_comma {s : List Char} (hs : ∀ c ∈ s, SafeFieldChar c) :
    ∀ c ∈ s, c ≠ ',' :=
  fun c hc => (hs c hc).2.2.2.1

theorem clean_chars (n v u : List Char)
    (hn : ∀ c ∈ n, SafeFieldChar c) (hv : ∀ c ∈ v, SafeFieldChar c)
    (hu : ∀ c ∈ u, SafeFieldChar c) :
    ∀ c ∈ cleanManifestText n v u, c ≠ '\\' ∧ c ≠ '/' := by
  unfold cleanManifestText
  exact chars_append (chars_append (chars_append (chars_append (chars_append
    (chars_append (chars_append (chars_append (by decide) (safe_no_slash hn))
      (by decide)) (by decide)) (safe_no_slash hv)) (by decide)) (by decide))
    (safe_no_slash hu)) (by decide)

theorem strip_clean (n v u : List Char)
    (hn : ∀ c ∈ n, SafeFieldChar c) (hv : ∀ c ∈ v, SafeFieldChar c)
    (hu : ∀ c ∈ u, SafeFieldChar c) :
    stripJsonComments (cleanManifestText n v u) = cleanManifestText n v u := by
  unfold stripJsonComments
  exact stripGo_id _ (clean_chars n v u hn hv hu) false _ (by omega)

theorem strip_decorated (w n v u : List Char) (hw : CommaSep w)
    (hn : ∀ c ∈ n, SafeFieldChar c) (hv : ∀ c ∈ v, SafeFieldChar c)
    (hu : ∀ c ∈ u, SafeFieldChar c) :
    stripJsonComments (decoratedBody w n v u) = normManifestText w n v u := by
  have hwlen : (tplEndD w).length = w.length + 3 := by
    simp [tplEndD]
  have hwsafe : ∀ c ∈ tplEndD w, c ≠ '\\' ∧ c ≠ '/' := by
    rcases hw with h | h | h <;> subst h <;> decide
  unfold stripJsonComments
  have hlen : (decoratedBody w n v u).length
      = n.length + v.length + u.length + (w.length + 48) := by
    simp [decoratedBody, tplHead, tplQComma, tplLineC, tplKeyV, tplBlockC,
      tplKeyU, tplEndD]
    omega
  rw [hlen]
  rw [show decoratedBody w n v u
      = tplHead ++ (n ++ (tplQComma ++ (tplLineC ++ (tplKeyV ++ (v ++ (tplQComma
        ++ (tplBlockC ++ (tplKeyU ++ (u ++ tplEndD w))))))))) from by
    simp [decoratedBody, List.append_assoc]]
  rw [stripGo_chunk tplHead (by decide) false _ _ (by simp only [tplHead, List.length_cons, List.length_nil]; omega)]
  rw [show (tplHead : List Char).length = 9 from rfl,
    show flipQuotes tplHead false = true from rfl]
  rw [stripGo_chunk n (safe_no_slash hn) true _ _ (by omega)]
  rw [flipQuotes_no_quote n (safe_no_quote hn) true]
  rw [stripGo_chunk tplQComma (by decide) true _ _ (by simp only [tplQComma, List.length_cons, List.length_nil]; omega)]
  rw [show (tplQComma : List Char).length = 2 from rfl,
    show flipQuotes tplQComma true = false from rfl]
  rw [stripGo_lineC _ _ (by omega)]
  rw [stripGo_chunk tplKeyV (by decide) false _ _ (by simp only [tplKeyV, List.length_cons, List.length_nil]; omega)]
  rw [show (tplKeyV : List Char).length = 11 from rfl,
    show flipQuotes tplKeyV false = true from rfl]
  rw [stripGo_chunk v (safe_no_slash hv) true _ _ (by omega)]
  rw [flipQuotes_no_quote v (safe_no_quote hv) true]
  rw [stripGo_chunk tplQComma (by decide) true _ _ (by simp only [tplQComma, List.length_cons, List.length_nil]; omega)]
  rw [show (tplQComma : List Char).length = 2 from rfl,
    show flipQuotes tplQComma true = false from rfl]
  rw [stripGo_blockC _ _ (by omega)]
  rw [stripGo_chunk tplKeyU (by decide) false _ _ (by simp only [tplKeyU, List.length_cons, List.length_nil]; omega)]
  rw [show (tplKeyU : List Char).length = 12 from rfl,
    show flipQuotes tplKeyU false = true from rfl]
  rw [stripGo_chunk u (safe_no_slash hu) true _ _ (by omega)]
  rw [flipQuotes_no_quote u (safe_no_quote hu) true]
  rw [stripGo_id (tplEndD w) hwsafe true _ (by omega)]
  simp [normManifestText, List.append_assoc]

/-! ## The trailing-comma fixes on the templates -/

theorem fix_clean (n v u : List Char)
    (hn : ∀ c ∈ n, SafeFieldChar c) (hv : ∀ c ∈ v, SafeFieldChar c)
    (hu : ∀ c ∈ u, SafeFieldChar c) :
    fixTrailingCommas (cleanManifestText n v u) = cleanManifestText n v u := by
  have hsh : cleanManifestText n v u
      = tplHead ++ (n ++ ((tplQComma ++ tplKeyV) ++ (v ++ ((tplQComma ++ tplKeyU)
        ++ (u ++ tplEndClean))))) := by
    simp [cleanManifestText, List.append_assoc]
  have hnp : ∀ pat : List Char, pat.head? = some ',' →
      chunkOk pat tplHead = true → chunkOk pat (tplQComma ++ tplKeyV) = true →
      chunkOk pat (tplQComma ++ tplKeyU) = true → chunkOk pat tplEndClean = true →
      NoPatB pat (cleanManifestText n v u) [] := by
    intro pat hp h0 h1 h2 h3
    rw [hsh]
    exact noPatB_shape pat [] _ _ _ _ n v u hp h0 h1 h2 h3
      (safe_no_comma hn) (safe_no_comma hv) (safe_no_comma hu)
  unfold fixTrailingCommas
  dsimp only
  rw [replaceAll_id_of [',', '\n', '}'] _ _
    (hnp [',', '\n', '}'] rfl (by decide) (by decide) (by decide) (by decide))]
  rw [replaceAll_id_of [',', '\r', '\n', '}'] _ _
    (hnp [',', '\r', '\n', '}'] rfl (by decide) (by decide) (by decide) (by decide))]
  rw [replaceAll_id_of [',', ' ', '}'] _ _
    (hnp [',', ' ', '}'] rfl (by decide) (by decide) (by decide) (by decide))]
  rw [replaceAll_id_of [',', ']'] _ _
    (hnp [',', ']'] rfl (by decide) (by decide) (by decide) (by decide))]
  rw [replaceAll_id_of [',', ' ', ']'] _ _
    (hnp [',', ' ', ']'] rfl (by decide) (by decide) (by decide) (by decide))]

theorem fix_norm (w n v u : List Char) (hw : CommaSep w)
    (hn : ∀ c ∈ n, SafeFieldChar c) (hv : ∀ c ∈ v, SafeFieldChar c)
    (hu : ∀ c ∈ u, SafeFieldChar c) :
    fixTrailingCommas (normManifestText w n v u) = norm2ManifestText w n v u := by
  rcases hw with hcase | hcase | hcase <;> subst hcase
  · have hsh : normManifestText ['\n'] n v u
        = (tplHead ++ (n ++ ((tplQComma ++ '\n' :: tplKeyV) ++ (v
            ++ ((tplQComma ++ ' ' :: tplKeyU) ++ (u ++ ['"']))))))
          ++ [',', '\n', '}'] := by
      simp [normManifestText, tplEndD, List.append_assoc]
    have hA : NoPatB [',', '\n', '}']
        (tplHead ++ (n ++ ((tplQComma ++ '\n' :: tplKeyV) ++ (v
          ++ ((tplQComma ++ ' ' :: tplKeyU) ++ (u ++ ['"']))))))
        [',', '\n', '}'] :=
      noPatB_shape _ _ _ _ _ _ n v u rfl (by decide) (by decide) (by decide) (by decide)
        (safe_no_comma hn) (safe_no_comma hv) (safe_no_comma hu)
    have hnp2 : ∀ pat : List Char, pat.head? = some ',' →
        chunkOk pat tplHead = true → chunkOk pat (tplQComma ++ '\n' :: tplKeyV) = true →
        chunkOk pat (tplQComma ++ ' ' :: tplKeyU) = true →
        chunkOk pat ['"', '\n', '}'] = true →
        NoPatB pat (norm2ManifestText ['\n'] n v u) [] := by
      intro pat hp h0 h1 h2 h3
      rw [show norm2ManifestText ['\n'] n v u
          = tplHead ++ (n ++ ((tplQComma ++ '\n' :: tplKeyV) ++ (v
            ++ ((tplQComma ++ ' ' :: tplKeyU) ++ (u ++ ['"', '\n', '}']))))) from by
        simp [norm2ManifestText, tplEndN, List.append_assoc]]
      exact noPatB_shape pat [] _ _ _ _ n v u hp h0 h1 h2 h3
        (safe_no_comma hn) (safe_no_comma hv) (safe_no_comma hu)
    unfold fixTrailingCommas
    dsimp only
    rw [hsh, replaceAll_tail _ _ _ (by decide) hA]
    rw [show (tplHead ++ (n ++ ((tplQComma ++ '\n' :: tplKeyV) ++ (v
        ++ ((tplQComma ++ ' ' :: tplKeyU) ++ (u ++ ['"'])))))) ++ ['\n', '}']
        = norm2ManifestText ['\n'] n v u from by
      simp [norm2ManifestText, tplEndN, List.append_assoc]]
    rw [replaceAll_id_of [',', '\r', '\n', '}'] _ _
      (hnp2 [',', '\r', '\n', '}'] rfl (by decide) (by decide) (by decide) (by decide))]
    rw [replaceAll_id_of [',', ' ', '}'] _ _
      (hnp2 [',', ' ', '}'] rfl (by decide) (by decide) (by decide) (by decide))]
    rw [replaceAll_id_of [',', ']'] _ _
      (hnp2 [',', ']'] rfl (by decide) (by decide) (by decide) (by decide))]
    rw [replaceAll_id_of [',', ' ', ']'] _ _
      (hnp2 [',', ' ', ']'] rfl (by decide) (by decide) (by decide) (by decide))]
  · have hnp1 : ∀ pat : List Char, pat.head? = some ',' →
        chunkOk pat tplHead = true → chunkOk pat (tplQComma ++ '\n' :: tplKeyV) = true →
        chunkOk pat (tplQComma ++ ' ' :: tplKeyU) = true →
        chunkOk pat ['"', ',', '\r', '\n', '}'] = true →
        NoPatB pat (normManifestText ['\r', '\n'] n v u) [] := by
      intro pat hp h0 h1 h2 h3
      rw [show normManifestText ['\r', '\n'] n v u
          = tplHead ++ (n ++ ((tplQComma ++ '\n' :: tplKeyV) ++ (v
            ++ ((tplQComma ++ ' ' :: tplKeyU)
              ++ (u ++ ['"', ',', '\r', '\n', '}']))))) from by
        simp [normManifestText, tplEndD, List.append_assoc]]
      exact noPatB_shape pat [] _ _ _ _ n v u hp h0 h1 h2 h3
        (safe_no_comma hn) (safe_no_comma hv) (safe_no_comma hu)
    have hsh : normManifestText ['\r', '\n'] n v u
        = (tplHead ++ (n ++ ((tplQComma ++ '\n' :: tplKeyV) ++ (v
            ++ ((tplQComma ++ ' ' :: tplKeyU) ++ (u ++ ['"']))))))
          ++ [',', '\r', '\n', '}'] := by
      simp [normManifestText, tplEndD, List.append_assoc]
    have hA : NoPatB [',', '\r', '\n', '}']
        (tplHead ++ (n ++ ((tplQComma ++ '\n' :: tplKeyV) ++ (v
          ++ ((tplQComma ++ ' ' :: tplKeyU) ++ (u ++ ['"']))))))
        [',', '\r', '\n', '}'] :=
      noPatB_shape _ _ _ _ _ _ n v u rfl (by decide) (by decide) (by decide) (by decide)
        (safe_no_comma hn) (safe_no_comma hv) (safe_no_comma hu)
    have hnp2 : ∀ pat : List Char, pat.head? = some ',' →
        chunkOk pat tplHead = true → chunkOk pat (tplQComma ++ '\n' :: tplKeyV) = true →
        chunkOk pat (tplQComma ++ ' ' :: tplKeyU) = true →
        chunkOk pat ['"', '\r', '\n', '}'] = true →
        NoPatB pat (norm2ManifestText ['\r', '\n'] n v u) [] := by
      intro pat hp h0 h1 h2 h3
      rw [show norm2ManifestText ['\r', '\n'] n v u
          = tplHead ++ (n ++ ((tplQComma ++ '\n' :: tplKeyV) ++ (v
            ++ ((tplQComma ++ ' ' :: tplKeyU) ++ (u ++ ['"', '\r', '\n', '}']))))) from by
        simp [norm2ManifestText, tplEndN, List.append_assoc]]
      exact noPatB_shape pat [] _ _ _ _ n v u hp h0 h1 h2 h3
        (safe_no_comma hn) (safe_no_comma hv) (safe_no_comma hu)
    unfold fixTrailingCommas
    dsimp only
    rw [replaceAll_id_of [',', '\n', '}'] _ _
      (hnp1 [',', '\n', '}'] rfl (by decide) (by decide) (by decide) (by decide))]
    rw [hsh, replaceAll_tail _ _ _ (by decide) hA]
    rw [show (tplHead ++ (n ++ ((tplQComma ++ '\n' :: tplKeyV) ++ (v
        ++ ((tplQComma ++ ' ' :: tplKeyU) ++ (u ++ ['"'])))))) ++ ['\r', '\n', '}']
        = norm2ManifestText ['\r', '\n'] n v u from by
      simp [norm2ManifestText, tplEndN, List.append_assoc]]
    rw [replaceAll_id_of [',', ' ', '}'] _ _
      (hnp2 [',', ' ', '}'] rfl (by decide) (by decide) (by decide) (by decide))]
    rw [replaceAll_id_of [',', ']'] _ _
      (hnp2 [',', ']'] rfl (by decide) (by decide) (by decide) (by decide))]
    rw [replaceAll_id_of [',', ' ', ']'] _ _
      (hnp2 [',', ' ', ']'] rfl (by decide) (by decide) (by decide) (by decide))]
  · have hnp1 : ∀ pat : List Char, pat.head? = some ',' →
        chunkOk pat tplHead = true → chunkOk pat (tplQComma ++ '\n' :: tplKeyV) = true →
        chunkOk pat (tplQComma ++ ' ' :: tplKeyU) = true →
        chunkOk pat ['"', ',', ' ', '}'] = true →
        NoPatB pat (normManifestText [' '] n v u) [] := by
      intro pat hp h0 h1 h2 h3
      rw [show normManifestText [' '] n v u
          = tplHead ++ (n ++ ((tplQComma ++ '\n' :: tplKeyV) ++ (v
            ++ ((tplQComma ++ ' ' :: tplKeyU) ++ (u ++ ['"', ',', ' ', '}']))))) from by
        simp [normManifestText, tplEndD, List.append_assoc]]
      exact noPatB_shape pat [] _ _ _ _ n v u hp h0 h1 h2 h3
        (safe_no_comma hn) (safe_no_comma hv) (safe_no_comma hu)
    have hsh : normManifestText [' '] n v u
        = (tplHead ++ (n ++ ((tplQComma ++ '\n' :: tplKeyV) ++ (v
            ++ ((tplQComma ++ ' ' :: tplKeyU) ++ (u ++ ['"']))))))
          ++ [',', ' ', '}'] := by
      simp [normManifestText, tplEndD, List.append_assoc]
    have hA : NoPatB [',', ' ', '}']
        (tplHead ++ (n ++ ((tplQComma ++ '\n' :: tplKeyV) ++ (v
          ++ ((tplQComma ++ ' ' :: tplKeyU) ++ (u ++ ['"']))))))
        [',', ' ', '}'] :=
      noPatB_shape _ _ _ _ _ _ n v u rfl (by decide) (by decide) (by decide) (by decide)
        (safe_no_comma hn) (safe_no_comma hv) (safe_no_comma hu)
    have hnp2 : ∀ pat : List Char, pat.head? = some ',' →
        chunkOk pat tplHead = true → chunkOk pat (tplQComma ++ '\n' :: tplKeyV) = true →
        chunkOk pat (tplQComma ++ ' ' :: tplKeyU) = true →
        chunkOk pat ['"', ' ', '}'] = true →
        NoPatB pat (norm2ManifestText [' '] n v u) [] := by
      intro pat hp h0 h1 h2 h3
      rw [show norm2ManifestText [' '] n v u
          = tplHead ++ (n ++ ((tplQComma ++ '\n' :: tplKeyV) ++ (v
            ++ ((tplQComma ++ ' ' :: tplKeyU) ++ (u ++ ['"', ' ', '}']))))) from by
        simp [norm2ManifestText, tplEndN, List.append_assoc]]
      exact noPatB_shape pat [] _ _ _ _ n v u hp h0 h1 h2 h3
        (safe_no_comma hn) (safe_no_comma hv) (safe_no_comma hu)
    unfold fixTrailingCommas
    dsimp only
    rw [replaceAll_id_of [',', '\n', '}'] _ _
      (hnp1 [',', '\n', '}'] rfl (by decide) (by decide) (by decide) (by decide))]
    rw [replaceAll_id_of [',', '\r', '\n', '}'] _ _
      (hnp1 [',', '\r', '\n', '}'] rfl (by decide) (by decide) (by decide) (by decide))]
    rw [hsh, replaceAll_tail _ _ _ (by decide) hA]
    rw [show (tplHead ++ (n ++ ((tplQComma ++ '\n' :: tplKeyV) ++ (v
        ++ ((tplQComma ++ ' ' :: tplKeyU) ++ (u ++ ['"'])))))) ++ [' ', '}']
        = norm2ManifestText [' '] n v u from by
      simp [norm2ManifestText, tplEndN, List.append_assoc]]
    rw [replaceAll_id_of [',', ']'] _ _
      (hnp2 [',', ']'] rfl (by decide) (by decide) (by decide) (by decide))]
    rw [replaceAll_id_of [',', ' ', ']'] _ _
      (hnp2 [',', ' ', ']'] rfl (by decide) (by decide) (by decide) (by decide))]

/-! ## Symbolic evaluation of the JSON parser on the templates -/

theorem safe_psb {s : List Char} (hs : ∀ c ∈ s, SafeFieldChar c) :
    ∀ c ∈ s, c ≠ '"' ∧ c ≠ '\\' ∧ 0x20 ≤ c.toNat :=
  fun c hc => ⟨(hs c hc).1, (hs c hc).2.1, (hs c hc).2.2.2.2⟩

theorem psb_safe (s : List Char)
    (hs : ∀ c ∈ s, c ≠ '"' ∧ c ≠ '\\' ∧ 0x20 ≤ c.toNat) :
    ∀ (rest : List Char) (fuel : Nat), s.length < fuel →
      parseStringBody fuel (s ++ '"' :: rest) = Except.ok (s, rest) := by
  induction s with
  | nil =>
    intro rest fuel hf
    cases fuel with
    | zero => omega
    | succ f => simp [parseStringBody]
  | cons c cs ih =>
    intro rest fuel hf
    cases fuel with
    | zero => omega
    | succ f =>
      have hc := hs c (List.mem_cons_self _ _)
      have hctl : ¬ c.toNat < 0x20 := by omega
      rw [List.cons_append]
      simp only [parseStringBody, hc.1, hc.2.1, hctl, if_false]
      rw [ih (fun x hx => hs x (List.mem_cons_of_mem _ hx)) rest f (by simp at hf; omega)]
      rfl

theorem pv_strfield (s : List Char)
    (hs : ∀ c ∈ s, c ≠ '"' ∧ c ≠ '\\' ∧ 0x20 ≤ c.toNat) (rest : List Char) :
    ∀ fuel, 0 < fuel →
      parseValue fuel ('"' :: (s ++ '"' :: rest))
        = Except.ok (Json.str (String.mk s), rest) := by
  intro fuel hf
  cases fuel with
  | zero => omega
  | succ f =>
    have hskip : skipWs ('"' :: (s ++ '"' :: rest)) = '"' :: (s ++ '"' :: rest) := by
      simp [skipWs, jsonWs]
    simp only [parseValue, hskip]
    rw [psb_safe s hs rest _ (by simp; omega)]
    rfl

theorem pm_cons (l key val after rest' : List Char)
    (hkey : ∀ c ∈ key, c ≠ '"' ∧ c ≠ '\\' ∧ 0x20 ≤ c.toNat)
    (hval : ∀ c ∈ val, c ≠ '"' ∧ c ≠ '\\' ∧ 0x20 ≤ c.toNat)
    (hl : skipWs l = '"' :: (key ++ '"' :: ':' :: '"' :: (val ++ '"' :: after)))
    (hafter : skipWs after = ',' :: rest') :
    ∀ fuel, 1 < fuel →
      parseMembers fuel l
        = (parseMembers (fuel - 1) rest').map
            (fun r => ((String.mk key, Json.str (String.mk val)) :: r.1, r.2)) := by
  intro fuel hf
  cases fuel with
  | zero => omega
  | succ f =>
    simp only [parseMembers, hl]
    rw [psb_safe key hkey _ _ (by simp; omega)]
    have hsk : skipWs (':' :: '"' :: (val ++ '"' :: after))
        = ':' :: '"' :: (val ++ '"' :: after) := by
      simp [skipWs, jsonWs]
    simp only [hsk]
    rw [pv_strfield val hval after f (by omega)]
    simp only [hafter, Nat.add_sub_cancel]

theorem pm_last (l key val after rest' : List Char)
    (hkey : ∀ c ∈ key, c ≠ '"' ∧ c ≠ '\\' ∧ 0x20 ≤ c.toNat)
    (hval : ∀ c ∈ val, c ≠ '"' ∧ c ≠ '\\' ∧ 0x20 ≤ c.toNat)
    (hl : skipWs l = '"' :: (key ++ '"' :: ':' :: '"' :: (val ++ '"' :: after)))
    (hafter : skipWs after = '}' :: rest') :
    ∀ fuel, 1 < fuel →
      parseMembers fuel l
        = Except.ok ([(String.mk key, Json.str (String.mk val))], rest') := by
  intro fuel hf
  cases fuel with
  | zero => omega
  | succ f =>
    simp only [parseMembers, hl]
    rw [psb_safe key hkey _ _ (by simp; omega)]
    have hsk : skipWs (':' :: '"' :: (val ++ '"' :: after))
        = ':' :: '"' :: (val ++ '"' :: after) := by
      simp [skipWs, jsonWs]
    simp only [hsk]
    rw [pv_strfield val hval after f (by omega)]
    simp only [hafter]

theorem skipWs_nws {c : Char} (h : jsonWs c = false) (l : List Char) :
    skipWs (c :: l) = c :: l := by
  simp [skipWs, List.dropWhile_cons, h]

theorem skipWs_ws {c : Char} (h : jsonWs c = true) (l : List Char) :
    skipWs (c :: l) = skipWs l := by
  simp [skipWs, List.dropWhile_cons, h]

theorem skipWs_append_ws (w : List Char) (hw : ∀ c ∈ w, jsonWs c = true)
    (l : List Char) : skipWs (w ++ l) = skipWs l := by
  induction w with
  | nil => rfl
  | cons c cs ih =>
    rw [List.cons_append, skipWs_ws (hw c (List.mem_cons_self _ _))]
    exact ih (fun x hx => hw x (List.mem_cons_of_mem _ hx))

theorem pv_objStart (l m k : List Char) (hl : skipWs l = '{' :: m)
    (hm : skipWs m = '"' :: k) :
    ∀ fuel, 0 < fuel →
      parseValue fuel l
        = (parseMembers (fuel - 1) ('"' :: k)).map (fun r => (Json.obj r.1, r.2)) := by
  intro fuel hf
  cases fuel with
  | zero => omega
  | succ f =>
    simp [parseValue, hl, hm]

theorem parseJson_clean (n v u : List Char)
    (hn : ∀ c ∈ n, SafeFieldChar c) (hv : ∀ c ∈ v, SafeFieldChar c)
    (hu : ∀ c ∈ u, SafeFieldChar c) :
    parseJson (cleanManifestText n v u)
      = Except.ok (Json.obj [("Name", Json.str (String.mk n)),
          ("Version", Json.str (String.mk v)),
          ("UniqueID", Json.str (String.mk u))]) := by
  have hT : cleanManifestText n v u
      = '{' :: ('"' :: (['N', 'a', 'm', 'e'] ++ '"' :: ':' :: '"' :: (n ++ '"' ::
          (',' :: ('"' :: (['V', 'e', 'r', 's', 'i', 'o', 'n'] ++ '"' :: ':' :: '"' ::
            (v ++ '"' :: (',' :: ('"' :: (['U', 'n', 'i', 'q', 'u', 'e', 'I', 'D']
              ++ '"' :: ':' :: '"' :: (u ++ '"' :: ['}']))))))))))) := by
    simp [cleanManifestText, tplHead, tplQComma, tplKeyV, tplKeyU, tplEndClean,
      List.append_assoc]
  have hlen : (cleanManifestText n v u).length = n.length + v.length + u.length + 38 := by
    simp [cleanManifestText, tplHead, tplQComma, tplKeyV, tplKeyU, tplEndClean]
    omega
  unfold parseJson
  rw [hT] at hlen ⊢
  rw [pv_objStart _ _ _ (skipWs_nws (by decide) _) (skipWs_nws (by decide) _) _ (by omega)]
  rw [pm_cons _ ['N', 'a', 'm', 'e'] n (',' :: ('"' :: (['V', 'e', 'r', 's', 'i', 'o', 'n']
      ++ '"' :: ':' :: '"' :: (v ++ '"' :: (',' :: ('"' :: (['U', 'n', 'i', 'q', 'u', 'e',
        'I', 'D'] ++ '"' :: ':' :: '"' :: (u ++ '"' :: ['}']))))))))
    _ (by decide) (safe_psb hn) (skipWs_nws (by decide) _)
    (skipWs_nws (by decide) _) _ (by omega)]
  rw [pm_cons _ ['V', 'e', 'r', 's', 'i', 'o', 'n'] v (',' :: ('"' :: (['U', 'n', 'i',
      'q', 'u', 'e', 'I', 'D'] ++ '"' :: ':' :: '"' :: (u ++ '"' :: ['}']))))
    _ (by decide) (safe_psb hv) (skipWs_nws (by decide) _)
    (skipWs_nws (by decide) _) _ (by omega)]
  rw [pm_last _ ['U', 'n', 'i', 'q', 'u', 'e', 'I', 'D'] u ['}'] []
    (by decide) (safe_psb hu) (skipWs_nws (by decide) _)
    (skipWs_nws (by decide) _) _ (by omega)]
  simp [skipWs, Except.map]

theorem parseJson_norm2 (w n v u : List Char)
    (hwws : ∀ c ∈ w, jsonWs c = true)
    (hn : ∀ c ∈ n, SafeFieldChar c) (hv : ∀ c ∈ v, SafeFieldChar c)
    (hu : ∀ c ∈ u, SafeFieldChar c) :
    parseJson (norm2ManifestText w n v u)
      = Except.ok (Json.obj [("Name", Json.str (String.mk n)),
          ("Version", Json.str (String.mk v)),
          ("UniqueID", Json.str (String.mk u))]) := by
  have hT : norm2ManifestText w n v u
      = '{' :: ('"' :: (['N', 'a', 'm', 'e'] ++ '"' :: ':' :: '"' :: (n ++ '"' ::
          (',' :: ('\n' :: '"' :: (['V', 'e', 'r', 's', 'i', 'o', 'n'] ++ '"' :: ':' :: '"' ::
            (v ++ '"' :: (',' :: (' ' :: '"' :: (['U', 'n', 'i', 'q', 'u', 'e', 'I', 'D']
              ++ '"' :: ':' :: '"' :: (u ++ '"' :: (w ++ ['}'])))))))))))) := by
    simp [norm2ManifestText, tplHead, tplQComma, tplKeyV, tplKeyU, tplEndN,
      List.append_assoc]
  have hlen : (norm2ManifestText w n v u).length
      = n.length + v.length + u.length + (w.length + 40) := by
    simp [norm2ManifestText, tplHead, tplQComma, tplKeyV, tplKeyU, tplEndN]
    omega
  unfold parseJson
  rw [hT] at hlen ⊢
  rw [pv_objStart _ _ _ (skipWs_nws (by decide) _) (skipWs_nws (by decide) _) _ (by omega)]
  rw [pm_cons _ ['N', 'a', 'm', 'e'] n (',' :: ('\n' :: '"' :: (['V', 'e', 'r', 's', 'i',
      'o', 'n'] ++ '"' :: ':' :: '"' :: (v ++ '"' :: (',' :: (' ' :: '"' :: (['U', 'n',
        'i', 'q', 'u', 'e', 'I', 'D'] ++ '"' :: ':' :: '"' :: (u ++ '"' :: (w ++ ['}'])))))))))
    _ (by decide) (safe_psb hn) (skipWs_nws (by decide) _)
    (skipWs_nws (by decide) _) _ (by omega)]
  rw [pm_cons _ ['V', 'e', 'r', 's', 'i', 'o', 'n'] v (',' :: (' ' :: '"' :: (['U', 'n',
      'i', 'q', 'u', 'e', 'I', 'D'] ++ '"' :: ':' :: '"' :: (u ++ '"' :: (w ++ ['}'])))))
    _ (by decide) (safe_psb hv)
    (by rw [skipWs_ws (by decide), skipWs_nws (by decide)])
    (skipWs_nws (by decide) _) _ (by omega)]
  rw [pm_last _ ['U', 'n', 'i', 'q', 'u', 'e', 'I', 'D'] u (w ++ ['}']) []
    (by decide) (safe_psb hu)
    (by rw [skipWs_ws (by decide), skipWs_nws (by decide)])
    (by rw [skipWs_append_ws w hwws]; exact skipWs_nws (by decide) _) _ (by omega)]
  simp [skipWs, Except.map]

theorem dropWhile_head_ne {p : Char → Bool} {l : List Char}
    (h : ∀ c, l.head? = some c → p c = false) : l.dropWhile p = l := by
  cases l with
  | nil => rfl
  | cons c t => simp [List.dropWhile_cons, h c rfl]

theorem mfj_rendered (n v u : List Char) :
    manifestFromJson (Json.obj [("Name", Json.str (String.mk n)),
        ("Version", Json.str (String.mk v)), ("UniqueID", Json.str (String.mk u))])
      = Except.ok (renderedManifest n v u) := by
  simp [manifestFromJson, reqString, jLookup, asString, optString, optBool,
    depsFromJson, cpFromJson, renderedManifest, List.find?, Except.bind, Bind.bind,
    Except.pure, Pure.pure]

theorem pmt_clean (n v u : List Char)
    (hn : ∀ c ∈ n, SafeFieldChar c) (hv : ∀ c ∈ v, SafeFieldChar c)
    (hu : ∀ c ∈ u, SafeFieldChar c) :
    parseManifestText (cleanManifestText n v u) = Except.ok (renderedManifest n v u) := by
  have hbom : (cleanManifestText n v u).dropWhile (fun c => c = '\uFEFF')
      = cleanManifestText n v u := by
    apply dropWhile_head_ne
    intro c hc
    have hh : (cleanManifestText n v u).head? = some '{' := by
      simp [cleanManifestText, tplHead]
    rw [hh] at hc
    injection hc with hc
    subst hc
    decide
  unfold parseManifestText
  dsimp only
  rw [hbom, strip_clean n v u hn hv hu, fix_clean n v u hn hv hu,
    parseJson_clean n v u hn hv hu]
  simp [mfj_rendered]

theorem commaSep_ws {w : List Char} (hw : CommaSep w) : ∀ c ∈ w, jsonWs c = true := by
  rcases hw with h | h | h <;> subst h <;> decide

theorem pmt_decorated (w n v u : List Char) (hw : CommaSep w)
    (hn : ∀ c ∈ n, SafeFieldChar c) (hv : ∀ c ∈ v, SafeFieldChar c)
    (hu : ∀ c ∈ u, SafeFieldChar c) :
    parseManifestText (decoratedManifestText w n v u)
      = Except.ok (renderedManifest n v u) := by
  have hbom : (decoratedManifestText w n v u).dropWhile (fun c => c = '\uFEFF')
      = decoratedBody w n v u := by
    unfold decoratedManifestText
    rw [List.dropWhile_cons]
    simp only [decide_True, if_true, decide_eq_true_eq, if_pos rfl]
    apply dropWhile_head_ne
    intro c hc
    have hh : (decoratedBody w n v u).head? = some '{' := by
      simp [decoratedBody, tplHead]
    rw [hh] at hc
    injection hc with hc
    subst hc
    decide
  unfold parseManifestText
  dsimp only
  rw [hbom, strip_decorated w n v u hw hn hv hu, fix_norm w n v u hw hn hv hu,
    parseJson_norm2 w n v u (commaSep_ws hw) hn hv hu]
  simp [mfj_rendered]

/-! ## Claim theorems -/

/-- C1 (counterexample): with `max_concurrent = 1`, an interleaving in
which task `A`'s execution drops its permit (download_manager.rs:181)
before `complete_download` writes `A`'s terminal status lets the freed
permit admit task `B`, so `get_queue_state` reports two `Downloading`
tasks — the claimed bound `Downloading ≤ permit count` is violated. -/
theorem c1_downloading_exceeds_permits :
    1 < tdmDownloadingCount (tdmRun 1 c1Trace) := by decide

/-- C1 (amended): across every interleaving of submissions, admission
attempts, cancellations, terminal callbacks and cleanups, permits are
conserved — every acquired permit is held by exactly one in-flight
continuation until it is dropped exactly once, on the terminal path or at
the scope exit of a fruitless admission attempt — so the number of
concurrently executing download bodies never exceeds the permit count
fixed at construction.  (The `Downloading` status label in the queue
snapshot can transiently exceed that count, because the permit is dropped
before the terminal status is written; see the counterexample.) -/
theorem c1_permit_conservation (maxC : Nat) (events : List TDMEvent) :
    (tdmRun maxC events).permits + heldPermits (tdmRun maxC events) = maxC ∧
    (tdmRun maxC events).eRun.length ≤ maxC := by
  have h := tdmRun_permits maxC events
  refine ⟨h, ?_⟩
  simp only [heldPermits] at h
  omega

/-- C3 (divergence witness): cancelling a task whose status is
`Downloading` removes it from the queue outright and returns `Ok` — the
first block of `cancel_download` matches the id with no status filter —
instead of only marking it `Failed("Cancelled by user")` as the claim (and
the code's own comments) describe; the active-map entry is left untouched. -/
theorem c3_cancel_downloading_removes_from_queue :
    cancelDownload
      { queue := [{ id := "t", status := DStatus.downloading }],
        active := [("t", DStatus.downloading)], permits := 0 } "t"
    = ({ queue := [], active := [("t", DStatus.downloading)], permits := 0 },
       Except.ok ()) := by
  rfl

/-- C8 (counterexample): cancelling an id that matches no task — the state
is freshly initialised, so neither the queue nor the active map contains
`"missing"` — returns `Ok`, not a `NotFound` error as the claim states. -/
theorem c8_cancel_unknown_id_returns_ok :
    cancelDownload (DMState.init 1) "missing" =
      (DMState.init 1, Except.ok ()) := by
  rfl

/-- C8 (amended): `cancel_download` never returns an error; for every state
and every id — matched or not — it returns `Ok`. -/
theorem c8_cancel_always_ok (s : DMState) (id : String) :
    (cancelDownload s id).2 = Except.ok () := by
  by_cases h : s.queue.any (fun t => t.id = id) <;> simp [cancelDownload, h]

/-- C5 (counterexample): with a single top-level directory `CoolMod` and a
display-name hint `Hint`, `determine_install_strategy` returns the folder
name as the target name — the hint does not override the derived default
in the single-folder layout, contrary to the claim that it does in both
layouts. -/
theorem c5_single_folder_ignores_hint :
    (determineInstallStrategy [FEntry.dir "CoolMod" []] "arc" (some "Hint")).2 = "CoolMod" ∧
    ("CoolMod" : String) ≠ "Hint" :=
  ⟨rfl, by decide⟩

/-- C5 (amended): one top-level entry that is a directory makes that
directory's children the unit and its name the target name, with the hint
ignored; every other layout makes the whole scratch tree the unit, with
the hint overriding the archive-stem default when present. -/
theorem c5_strategy_characterisation (entries : List FEntry) (stem : String)
    (hint : Option String) :
    (∀ n cs, entries = [FEntry.dir n cs] →
      determineInstallStrategy entries stem hint = (cs, n)) ∧
    ((∀ n cs, entries ≠ [FEntry.dir n cs]) →
      determineInstallStrategy entries stem hint = (entries, hint.getD stem)) := by
  constructor
  · intro n cs h
    subst h
    rfl
  · intro h
    cases entries with
    | nil => rfl
    | cons e rest =>
      cases rest with
      | cons f rest2 => cases e <;> rfl
      | nil =>
        cases e with
        | file n c => rfl
        | dir n cs => exact absurd rfl (h n cs)

/-- C5 (witness): the characterisation applied to a concrete single-folder
layout and to a concrete empty layout with a hint. -/
theorem c5_strategy_characterisation_witness :
    determineInstallStrategy [FEntry.dir "A" [FEntry.file "f" "c"]] "s" (some "h")
      = ([FEntry.file "f" "c"], "A") ∧
    determineInstallStrategy [] "s" (some "h") = ([], "h") :=
  ⟨(c5_strategy_characterisation [FEntry.dir "A" [FEntry.file "f" "c"]] "s" (some "h")).1
      "A" [FEntry.file "f" "c"] rfl,
   (c5_strategy_characterisation [] "s" (some "h")).2 (by simp)⟩

/-- C6 (counterexample): the target name `CoolMod` is a member of the
configured framework set, yet the install lands at `Game/Mods/CoolMod`
rather than `Game/Mods/_Frameworks/CoolMod`, because the framework check
uses the caller hint (`Other`) when one is present. -/
theorem c6_framework_member_lands_outside_frameworks :
    targetNameOf cfgFrameworkHint = "CoolMod" ∧
    cfgFrameworkHint.settings.coreFrameworks.contains "CoolMod" = true ∧
    (installFromArchive cfgFrameworkHint []).1 =
      Except.ok { modName := "Other", version := "Unknown", uniqueId := "CoolMod",
                  installPath := ["Game", "Mods", "CoolMod"] } ∧
    (["Game", "Mods", "CoolMod"] : List String) ≠ ["Game", "Mods", "_Frameworks", "CoolMod"] :=
  ⟨rfl, by decide, rfl, by decide⟩

theorem installPathOf_eq (cfg : InstallCfg) :
    installPathOf cfg =
      if cfg.settings.coreFrameworks.contains (cfg.modName.getD (targetNameOf cfg))
      then cfg.gamePath ++ ["Mods", "_Frameworks", targetNameOf cfg]
      else cfg.gamePath ++ ["Mods", targetNameOf cfg] := by
  unfold installPathOf installBaseOf isFrameworkOf
  cases hm : cfg.modName with
  | none =>
    by_cases hmem : targetNameOf cfg ∈ cfg.settings.coreFrameworks <;>
      simp [hm, hmem, Option.getD]
  | some n =>
    by_cases hmem : n ∈ cfg.settings.coreFrameworks <;>
      simp [hm, hmem, Option.getD]

/-- C6 (amended): the name the framework check consults is the caller's
display-name hint when one is present and the target name otherwise; when
that name is in the framework set the returned record's install path is
`<modsRoot>/_Frameworks/<targetName>`, else `<modsRoot>/<targetName>`
(`modsRoot = gamePath/Mods`). -/
theorem c6_install_path_resolution (cfg : InstallCfg) (fs : Fs)
    (r : InstallResult) (fs' : Fs)
    (h : installFromArchive cfg fs = (Except.ok r, fs')) :
    r.installPath =
      if cfg.settings.coreFrameworks.contains (cfg.modName.getD (targetNameOf cfg))
      then cfg.gamePath ++ ["Mods", "_Frameworks", targetNameOf cfg]
      else cfg.gamePath ++ ["Mods", targetNameOf cfg] := by
  have hip : r.installPath = installPathOf cfg := by
    simp only [installFromArchive] at h
    split at h
    · simp at h
    · split at h
      · split at h
        · simp at h
        · simp only [Prod.mk.injEq] at h
          obtain ⟨h1, _⟩ := h
          injection h1 with h1
          rw [← h1]
      · simp at h
  rw [hip, installPathOf_eq]

/-- C6 (witness): the resolution applied to the concrete call
`cfgFrameworkHint` on an empty file system. -/
theorem c6_install_path_resolution_witness :
    ({ modName := "Other", version := "Unknown", uniqueId := "CoolMod",
       installPath := ["Game", "Mods", "CoolMod"] } : InstallResult).installPath =
      if cfgFrameworkHint.settings.coreFrameworks.contains
           (cfgFrameworkHint.modName.getD (targetNameOf cfgFrameworkHint))
      then cfgFrameworkHint.gamePath ++ ["Mods", "_Frameworks", targetNameOf cfgFrameworkHint]
      else cfgFrameworkHint.gamePath ++ ["Mods", targetNameOf cfgFrameworkHint] :=
  c6_install_path_resolution cfgFrameworkHint [] _ _ rfl

/-- C2 (counterexample): the rollback removal's result is discarded
(`let _ =`, mod_installer.rs:467), so when that removal itself fails the
partially-copied destination `Game/Mods/CoolMod` — including the partial
file `f.txt` — still exists once the operation returns, contrary to the
claim that the destination path does not exist. -/
theorem c2_failed_rollback_leaves_partial_files :
    (installFromArchive cfgCopyFaultNoRollback []).1
      = Except.error (InstallError.ioError "disk full") ∧
    fsHas (installFromArchive cfgCopyFaultNoRollback []).2
      (installPathOf cfgCopyFaultNoRollback) = true ∧
    fsHas (installFromArchive cfgCopyFaultNoRollback []).2
      (installPathOf cfgCopyFaultNoRollback ++ ["f.txt"]) = true := by
  exact ⟨rfl, rfl, rfl⟩

/-- C2 (amended): when the copy phase fails partway — whatever was already
written below the destination — `install_from_archive` returns that
failure and no success record is produced; the rollback removal of the
destination is best-effort, so nothing under the destination path remains
when that removal itself succeeds (and partial files can remain when it
fails; see the counterexample). -/
theorem c2_copy_failure_best_effort_rollback (cfg : InstallCfg) (fs : Fs)
    (w : Fs) (msg : String)
    (ha : cfg.settings.autoInstall = true)
    (hc : cfg.copyFault = some (w, msg))
    (hrf : cfg.removeFaults.contains (installPathOf cfg) = false) :
    (installFromArchive cfg fs).1 = Except.error (InstallError.ioError msg) ∧
    ∀ q ∈ (installFromArchive cfg fs).2, (installPathOf cfg).isPrefixOf q.1 = false := by
  have hrb : ∀ fs1 : Fs,
      installModFilesWithRollback cfg.removeFaults fs1 (unitOf cfg)
          (installPathOf cfg) cfg.copyFault
        = (some (InstallError.ioError msg),
           removeUnder (createDirAll fs1 (installPathOf cfg)
             ++ w.map (fun q => (installPathOf cfg ++ q.1, q.2))) (installPathOf cfg)) := by
    intro fs1
    simp only [installModFilesWithRollback, hc]
    rw [forceRemove_noFault _ _ _ hrf (fsHas_createDirAll_append fs1 _ _)]
  by_cases hex : fsHas fs (installPathOf cfg) = true
  · have hpre := forceRemove_noFault cfg.removeFaults
      (backupMod cfg.backupFault fs (installPathOf cfg) (backupPathOf cfg)).1
      (installPathOf cfg) hrf
      (fsHas_backupMod cfg.backupFault fs (installPathOf cfg) (backupPathOf cfg)
        (installPathOf cfg) hex)
    simp only [installFromArchive, hex, if_true, hpre, ha, hrb]
    exact ⟨by trivial, fun q hq => removeUnder_clean _ _ q hq⟩
  · have hex' : fsHas fs (installPathOf cfg) = false := by simpa using hex
    simp only [installFromArchive, hex', Bool.false_eq_true, if_false, ha, hrb]
    exact ⟨by trivial, fun q hq => removeUnder_clean _ _ q hq⟩

/-- C2 (witness): the best-effort rollback applied to the concrete
faulting call `cfgCopyFault`, whose removal succeeds, on an empty file
system. -/
theorem c2_copy_failure_best_effort_rollback_witness :
    (installFromArchive cfgCopyFault []).1 = Except.error (InstallError.ioError "disk full") ∧
    ∀ q ∈ (installFromArchive cfgCopyFault []).2,
      (installPathOf cfgCopyFault).isPrefixOf q.1 = false :=
  c2_copy_failure_best_effort_rollback cfgCopyFault [] [(["f.txt"], some "y")]
    "disk full" rfl rfl rfl

/-- C10 (counterexample): when `force_remove_dir_all` of the occupied
install path fails, its error propagates (`?`, mod_installer.rs:111)
before the auto-install gate is ever reached: the call returns `IoError`
— not `InstallationFailed` — with the prior install left fully in place
and, the backup having failed too (only logged, mod_installer.rs:107-109),
no backup written. -/
theorem c10_remove_failure_leaves_prior_install :
    (installFromArchive cfgAutoOffRemoveFault fsPrior).1
      = Except.error (InstallError.ioError "Directory not empty (os error 39)") ∧
    (installFromArchive cfgAutoOffRemoveFault fsPrior).2 = fsPrior ∧
    fsHas (installFromArchive cfgAutoOffRemoveFault fsPrior).2
      (backupPathOf cfgAutoOffRemoveFault) = false := by
  exact ⟨rfl, rfl, rfl⟩

/-- C10 (amended): with auto-install disabled and the resolved install
path already occupied, when the backup copy and the forced removal
themselves succeed, `install_from_archive` returns the
`InstallationFailed` auto-install error, but only after the pre-existing
install has been copied to the timestamped backup location and
force-removed — nothing under the install path remains, and every prior
entry below it reappears under the backup path (the two paths being
prefix-incomparable).  The backup is best-effort (its failure is only
logged) and a removal failure aborts earlier with an `IoError`, leaving
the prior install in place; see the counterexample. -/
theorem c10_disabled_error_after_backup_and_remove (cfg : InstallCfg) (fs : Fs)
    (ha : cfg.settings.autoInstall = false)
    (hsep1 : (installPathOf cfg).isPrefixOf (backupPathOf cfg) = false)
    (hsep2 : (backupPathOf cfg).isPrefixOf (installPathOf cfg) = false)
    (hex : fsHas fs (installPathOf cfg) = true)
    (hrf : cfg.removeFaults.contains (installPathOf cfg) = false)
    (hbf : cfg.backupFault = false) :
    (installFromArchive cfg fs).1 =
      Except.error (InstallError.installationFailed "Auto-install is disabled") ∧
    (∀ q ∈ (installFromArchive cfg fs).2, (installPathOf cfg).isPrefixOf q.1 = false) ∧
    (∀ q ∈ fs, (installPathOf cfg).isPrefixOf q.1 = true → q.1 ≠ installPathOf cfg →
      ((backupPathOf cfg) ++ q.1.drop (installPathOf cfg).length, q.2)
        ∈ (installFromArchive cfg fs).2) := by
  have hnb : ∀ r : List String,
      (installPathOf cfg).isPrefixOf ((backupPathOf cfg) ++ r) = false := by
    intro r
    rw [Bool.eq_false_iff]
    intro hcon
    have h1 : ¬ (installPathOf cfg <+: backupPathOf cfg) := by
      rw [← List.isPrefixOf_iff_prefix, hsep1]
      exact Bool.false_ne_true
    have h2 : ¬ (backupPathOf cfg <+: installPathOf cfg) := by
      rw [← List.isPrefixOf_iff_prefix, hsep2]
      exact Bool.false_ne_true
    exact not_prefix_append_of_incomp h1 h2 r (List.isPrefixOf_iff_prefix.mp hcon)
  have hpre := forceRemove_noFault cfg.removeFaults
    (backupMod cfg.backupFault fs (installPathOf cfg) (backupPathOf cfg)).1
    (installPathOf cfg) hrf
    (fsHas_backupMod cfg.backupFault fs (installPathOf cfg) (backupPathOf cfg)
      (installPathOf cfg) hex)
  simp only [installFromArchive, ha, hex, if_true, hpre, Bool.false_eq_true, if_false]
  refine ⟨by trivial, fun q hq => removeUnder_clean _ _ q hq, ?_⟩
  intro q hq hpref hne
  apply List.mem_filter.mpr
  constructor
  · show _ ∈ (backupMod cfg.backupFault fs (installPathOf cfg) (backupPathOf cfg)).1
    rw [hbf]
    simp only [backupMod, Bool.false_eq_true, if_false]
    apply List.mem_append.mpr
    right
    apply List.mem_map.mpr
    refine ⟨q, List.mem_filter.mpr ⟨hq, ?_⟩, rfl⟩
    simp [hpref, hne]
  · simp [hnb]

/-- C10 (witness): the concrete disabled call `cfgAutoOff` — fault-free
backup and removal — over a file system already holding an install at
`Game/Mods/CoolMod`. -/
theorem c10_disabled_error_witness :
    (installFromArchive cfgAutoOff fsPrior).1 =
      Except.error (InstallError.installationFailed "Auto-install is disabled") ∧
    (∀ q ∈ (installFromArchive cfgAutoOff fsPrior).2,
      (installPathOf cfgAutoOff).isPrefixOf q.1 = false) ∧
    (∀ q ∈ fsPrior,
      (installPathOf cfgAutoOff).isPrefixOf q.1 = true → q.1 ≠ installPathOf cfgAutoOff →
      ((backupPathOf cfgAutoOff) ++ q.1.drop (installPathOf cfgAutoOff).length, q.2)
        ∈ (installFromArchive cfgAutoOff fsPrior).2) :=
  c10_disabled_error_after_backup_and_remove cfgAutoOff fsPrior
    rfl rfl rfl rfl rfl rfl

theorem manifestVersionId_fallback (fs2 : Fs) (mp : List String) (t : String)
    (h : ∀ c, fsLookup fs2 mp = some (some c) →
      ∃ e, parseManifestText c.data = Except.error e) :
    manifestVersionId fs2 mp t = ("Unknown", t) := by
  unfold manifestVersionId
  by_cases hhas : fsHas fs2 mp = true
  · simp only [hhas, if_true]
    cases hl : fsLookup fs2 mp with
    | none => rfl
    | some oc =>
      cases oc with
      | none => rfl
      | some c =>
        rcases h c hl with ⟨e, he⟩
        dsimp only
        rw [he]
  · have hf : fsHas fs2 mp = false := by simpa using hhas
    simp [hf]

theorem install_ok_fallback_aux (cfg : InstallCfg) (fs1 : Fs)
    (hf1 : ∀ q ∈ fs1, (installPathOf cfg).isPrefixOf q.1 = false)
    (hman : ∀ c, unitManifest (unitOf cfg) = some (some c) →
      ∃ e, parseManifestText c.data = Except.error e) :
    manifestVersionId
      (createDirAll fs1 (installPathOf cfg) ++ entriesPaths (installPathOf cfg) (unitOf cfg))
      (installPathOf cfg ++ ["manifest.json"]) (targetNameOf cfg)
      = ("Unknown", targetNameOf cfg) := by
  have hself : (installPathOf cfg).isPrefixOf (installPathOf cfg) = true := by
    rw [List.isPrefixOf_iff_prefix]
  have hno1 : fsHas fs1 (installPathOf cfg) = false := by
    rw [Bool.eq_false_iff]
    intro hhas
    rcases List.any_eq_true.mp hhas with ⟨q, hq, hqe⟩
    have heq : q.1 = installPathOf cfg := by simpa using hqe
    have hpf := hf1 q hq
    rw [heq, hself] at hpf
    exact absurd hpf (by decide)
  have hcd : createDirAll fs1 (installPathOf cfg) = fs1 ++ [(installPathOf cfg, none)] := by
    simp [createDirAll, hno1]
  have hlookup :
      fsLookup (createDirAll fs1 (installPathOf cfg)
          ++ entriesPaths (installPathOf cfg) (unitOf cfg))
        (installPathOf cfg ++ ["manifest.json"]) = unitManifest (unitOf cfg) := by
    rw [hcd]
    unfold fsLookup
    rw [List.find?_append, List.find?_append]
    have hn1 : fs1.find? (fun q => q.1 = installPathOf cfg ++ ["manifest.json"]) = none := by
      apply List.find?_eq_none.mpr
      intro q hq hp
      have heq : q.1 = installPathOf cfg ++ ["manifest.json"] := by simpa using hp
      have hpf := hf1 q hq
      rw [heq] at hpf
      have hap : (installPathOf cfg).isPrefixOf
          (installPathOf cfg ++ ["manifest.json"]) = true := by
        rw [List.isPrefixOf_iff_prefix]
        exact List.prefix_append _ _
      rw [hap] at hpf
      exact absurd hpf (by decide)
    have hn2 : [((installPathOf cfg, none) : List String × Option String)].find?
        (fun q => q.1 = installPathOf cfg ++ ["manifest.json"]) = none := by
      apply List.find?_eq_none.mpr
      intro q hq hp
      rw [List.mem_singleton] at hq
      subst hq
      have heq : installPathOf cfg = installPathOf cfg ++ ["manifest.json"] := by
        simp at hp
      have hlen := congrArg List.length heq
      simp at hlen
    rw [hn1, hn2, Option.none_or, Option.none_or]
    have hfinal := entriesPaths_manifest_lookup (installPathOf cfg) (unitOf cfg)
    simpa [fsLookup] using hfinal
  apply manifestVersionId_fallback
  intro c hlc
  apply hman c
  rw [← hlookup]
  exact hlc

/-- C7: when the install reaches its copy phase (the removal of a prior
occupant, whose failure would abort earlier, succeeds), the copy phase
succeeds and the manifest at the installed location is absent (including
a directory of that name) or unparsable, `install_from_archive` still
returns a successful record whose version is `"Unknown"` and whose unique
id is the target name — the manifest failure never aborts the install. -/
theorem c7_manifest_fallback (cfg : InstallCfg) (fs : Fs)
    (ha : cfg.settings.autoInstall = true)
    (hc : cfg.copyFault = none)
    (hrf : cfg.removeFaults.contains (installPathOf cfg) = false)
    (hclean : fsHas fs (installPathOf cfg) = false →
      ∀ q ∈ fs, (installPathOf cfg).isPrefixOf q.1 = false)
    (hman : ∀ c, unitManifest (unitOf cfg) = some (some c) →
      ∃ e, parseManifestText c.data = Except.error e) :
    ∃ fs2 : Fs, installFromArchive cfg fs =
      (Except.ok { modName := cfg.modName.getD (targetNameOf cfg), version := "Unknown",
                   uniqueId := targetNameOf cfg, installPath := installPathOf cfg }, fs2) := by
  by_cases hex : fsHas fs (installPathOf cfg) = true
  · have hpre := forceRemove_noFault cfg.removeFaults
      (backupMod cfg.backupFault fs (installPathOf cfg) (backupPathOf cfg)).1
      (installPathOf cfg) hrf
      (fsHas_backupMod cfg.backupFault fs (installPathOf cfg) (backupPathOf cfg)
        (installPathOf cfg) hex)
    simp only [installFromArchive, installModFilesWithRollback, ha, hc, hex, if_true, hpre]
    rw [install_ok_fallback_aux cfg _ (fun q hq => removeUnder_clean _ _ q hq) hman]
    exact ⟨_, rfl⟩
  · have hex' : fsHas fs (installPathOf cfg) = false := by simpa using hex
    simp only [installFromArchive, installModFilesWithRollback, ha, hc, hex',
      Bool.false_eq_true, if_false, if_true]
    rw [install_ok_fallback_aux cfg fs (hclean hex') hman]
    exact ⟨_, rfl⟩

/-- C7 (witness): the concrete call `cfgBadManifest`, whose unit holds a
manifest that is not JSON, still installs with the fallback record. -/
theorem c7_manifest_fallback_witness :
    ∃ fs2 : Fs, installFromArchive cfgBadManifest [] =
      (Except.ok { modName := cfgBadManifest.modName.getD (targetNameOf cfgBadManifest),
                   version := "Unknown",
                   uniqueId := targetNameOf cfgBadManifest,
                   installPath := installPathOf cfgBadManifest }, fs2) :=
  c7_manifest_fallback cfgBadManifest [] rfl rfl rfl
    (fun _ => by intro q hq; simp at hq)
    (fun c hc => by
      have hcc : c = "not json" := by
        have := hc
        simp [unitManifest, unitOf, cfgBadManifest, determineInstallStrategy,
          FEntry.name, List.find?] at this
        exact this.symm
      subst hcc
      exact ⟨InstallError.invalidManifest "Invalid JSON syntax: expected null", by decide⟩)

/-- C4 (amended): for every manifest of the three required string fields
whose values range over inert characters (no quote, backslash, slash,
comma or control character — the `str::replace`-based comma fix is not
string-aware), and for each of the three handled brace-directed
trailing-comma separators (newline, CRLF, single space), the decorated
rendering — a UTF-8 BOM, a `//` line comment, a `/* */` block comment
outside string literals, and the trailing comma before the closing brace
— parses to the same `ModManifest` as the clean-JSON equivalent, namely
the rendered manifest itself. -/
theorem c4_normalisation_family (w n v u : List Char) (hw : CommaSep w)
    (hn : ∀ c ∈ n, SafeFieldChar c) (hv : ∀ c ∈ v, SafeFieldChar c)
    (hu : ∀ c ∈ u, SafeFieldChar c) :
    parseManifestText (decoratedManifestText w n v u)
      = parseManifestText (cleanManifestText n v u) ∧
    parseManifestText (cleanManifestText n v u)
      = Except.ok (renderedManifest n v u) := by
  refine ⟨?_, pmt_clean n v u hn hv hu⟩
  rw [pmt_decorated w n v u hw hn hv hu, pmt_clean n v u hn hv hu]

set_option maxRecDepth 4000 in
/-- C4 (witness): the normalisation equivalence instantiated at the
concrete manifest with name `a`, version `1.0` and id `x.y`, once for
each of the three handled separators. -/
theorem c4_normalisation_family_witness :
    (parseManifestText (decoratedManifestText ['\n'] "a".data "1.0".data "x.y".data)
      = parseManifestText (cleanManifestText "a".data "1.0".data "x.y".data) ∧
     parseManifestText (cleanManifestText "a".data "1.0".data "x.y".data)
      = Except.ok (renderedManifest "a".data "1.0".data "x.y".data)) ∧
    (parseManifestText (decoratedManifestText ['\r', '\n'] "a".data "1.0".data "x.y".data)
      = parseManifestText (cleanManifestText "a".data "1.0".data "x.y".data)) ∧
    (parseManifestText (decoratedManifestText [' '] "a".data "1.0".data "x.y".data)
      = parseManifestText (cleanManifestText "a".data "1.0".data "x.y".data)) :=
  ⟨c4_normalisation_family ['\n'] "a".data "1.0".data "x.y".data
      (by decide) (by decide) (by decide) (by decide),
   (c4_normalisation_family ['\r', '\n'] "a".data "1.0".data "x.y".data
      (by decide) (by decide) (by decide) (by decide)).1,
   (c4_normalisation_family [' '] "a".data "1.0".data "x.y".data
      (by decide) (by decide) (by decide) (by decide)).1⟩

set_option maxRecDepth 4000 in
/-- C4 (counterexample): a trailing comma written immediately before the
closing brace, with nothing between them, is not one of the five replaced
patterns, so the decorated text fails to parse while its clean-JSON
equivalent parses — the two do not yield the same `ModManifest`. -/
theorem c4_bare_trailing_comma_not_removed :
    parseManifestText "\x7b\"Name\":\"a\",\"Version\":\"1.0\",\"UniqueID\":\"x.y\"\x7d".data =
      Except.ok { name := "a", author := "Unknown", version := "1.0", uniqueId := "x.y",
                  description := none, dependencies := none, contentPackFor := none } ∧
    parseManifestText "\x7b\"Name\":\"a\",\"Version\":\"1.0\",\"UniqueID\":\"x.y\",\x7d".data =
      Except.error (InstallError.invalidManifest "Invalid JSON syntax: key must be a string") := by
  constructor <;> decide

set_option maxRecDepth 8000 in
/-- C9 (failing input): on an expected failure condition — a non-success
HTTP response whose body is 199 ASCII characters followed by one two-byte
character, hence 201 bytes with byte 200 inside the last character — the
executor's error-body truncation panics (`none`) instead of producing a
descriptive error string. -/
theorem c9_error_body_truncation_panics :
    httpErrorMessage "500" (List.replicate 199 'a' ++ ['é']) = none := by
  decide

end TreasureChest
